import Mathlib

/-!
Verification of the dual-transport storage access layer of the rice-node SDK.

The development shallowly embeds the TypeScript sources:
* `storage/utils/BitVector.ts` — the fixed-width 1024-bit address codec and its
  Hamming-distance routine (a 32-bit SWAR population count applied to the two
  halves of each 64-bit chunk);
* `storage/client/RiceDBClient.ts` — the orchestrating client: transport
  selection with automatic gRPC-to-HTTP fallback, run-scope resolution for
  `insert`, `search` and `deleteRun`, and the bulk-ingestion engine
  `fastIngest` of the abstract base class;
* `storage/client/GrpcClient.ts` and `storage/client/HttpClient.ts` — the two
  transports, of which we embed the operations that fail fast without network
  traffic, the constructor/token handling, and `checkPermission`.

JavaScript machine integers are modelled as `Nat` carrying the two's-complement
bit pattern, with explicit `% 2 ^ 32` (resp. `% 2 ^ 64`) where the code
truncates.  Fallible operations return `Except SdkError`.  Network traffic is
made observable: transport calls are reified as data (`TransportCall`,
`MethodOutcome.netRequests`), so "no network I/O happens" is the statement that
the recorded request list is empty, and "the transport is not invoked" is the
statement that the result does not depend on the transport oracle.  The
asynchronous worker pool of `fastIngest` is embedded as a small-step transition
system whose interleavings are quantified over.
-/

namespace RiceSDK

/-! ## Error taxonomy

The TypeScript code signals failures with `throw new Error(msg)`; the message
identifies the kind (input validation, unsupported operation, not connected,
remote failure).  We reify the taxonomy as an inductive and keep the exact
source message as payload. -/

inductive SdkError where
  | validation (msg : String)
  | unsupported (msg : String)
  | notConnected
  | remote (msg : String)
deriving DecidableEq, Repr

/-- Decidable equality for `Except`, needed to evaluate concrete outcomes. -/
instance exceptDecEq {ε α : Type} [DecidableEq ε] [DecidableEq α] :
    DecidableEq (Except ε α) := fun a b =>
  match a, b with
  | .ok x, .ok y => if h : x = y then .isTrue (by rw [h]) else .isFalse (by simp [h])
  | .error e, .error f => if h : e = f then .isTrue (by rw [h]) else .isFalse (by simp [h])
  | .ok _, .error _ => .isFalse (by simp)
  | .error _, .ok _ => .isFalse (by simp)

/-! ## Address codec (`storage/utils/BitVector.ts`) -/

/-- `BitVector.ADDRESS_SIZE_U64 = 16`: number of unsigned 64-bit chunks. -/
def ADDRESS_SIZE_U64 : Nat := 16

/-- Reference population count, fuel-indexed so that it computes by kernel
reduction (`bitCount n` uses fuel `n`, which dominates the recursion depth). -/
def bitCountAux : Nat → Nat → Nat
  | 0, _ => 0
  | fuel + 1, n => if n = 0 then 0 else n % 2 + bitCountAux fuel (n / 2)

/-- Number of set bits of a natural number (reference specification against
which the SWAR implementation `popCount32` is proved correct). -/
def bitCount (n : Nat) : Nat := bitCountAux n n

/-- Byte-level stage 1 of the SWAR pipeline: per-2-bit-field counts. -/
def pb1 (b : Nat) : Nat := b - (b / 2 &&& 0x55)

/-- Byte-level stage 2 of the SWAR pipeline: per-4-bit-field counts. -/
def pb2 (s : Nat) : Nat := (s &&& 0x33) + (s / 4 &&& 0x33)

/-- Byte-level stages 1+2 combined. -/
def pbt (b : Nat) : Nat := pb2 (pb1 b)

/-- `BitVector.popCount32(n)` from the source, on the unsigned 32-bit pattern.
The JS code runs on a signed 32-bit input; every step below agrees with the JS
number semantics on the bit pattern: `n >>> k` is `n / 2 ^ k` on the pattern,
the subtraction never underflows (the mask term is at most `n / 2`), all
intermediate sums stay below `2 ^ 32`, the product is exact in doubles, and the
final `>>> 24` truncates the product to 32 bits before shifting. -/
def popCount32 (n : Nat) : Nat :=
  let a := n - (n / 2 &&& 0x55555555)
  let t := (a &&& 0x33333333) + (a / 4 &&& 0x33333333)
  ((t + t / 16) &&& 0xf0f0f0f) * 0x1010101 % 2 ^ 32 / 2 ^ 24

/-- `Long.fromValue` coerces constructor inputs to unsigned 64-bit values. -/
def longOfValue (n : Nat) : Nat := n % 2 ^ 64

/-- An Address/Value: a list of unsigned 64-bit chunks (`private chunks`). -/
structure BitVector where
  chunks : List Nat
deriving DecidableEq, Repr

/-- The `BitVector` constructor: with an argument it validates that exactly
`ADDRESS_SIZE_U64` chunks are supplied (otherwise it throws
"BitVector must have 16 chunks", an input-validation failure) and coerces each
entry through `Long.fromValue`; with no argument it fills 16 zero chunks. -/
def BitVector.make (cs? : Option (List Nat)) : Except SdkError BitVector :=
  match cs? with
  | some cs =>
      if cs.length ≠ ADDRESS_SIZE_U64 then
        .error (.validation "BitVector must have 16 chunks")
      else
        .ok ⟨cs.map longOfValue⟩
  | none => .ok ⟨List.replicate ADDRESS_SIZE_U64 0⟩

/-- `BitVector.random()`: draws, for each of the 16 chunks, a random low and a
random high 32-bit half (`new Long(low, high, true)`); the two draws per index
are supplied as oracles. -/
def BitVector.random (low high : Nat → Nat) : BitVector :=
  ⟨(List.range ADDRESS_SIZE_U64).map fun i =>
    low i % 2 ^ 32 + 2 ^ 32 * (high i % 2 ^ 32)⟩

/-- `toList()` returns the chunk list. -/
def BitVector.toList (v : BitVector) : List Nat := v.chunks

/-- `hammingDistance`: for each of the 16 chunk indices, XOR the chunks and add
the 32-bit population counts of the low and high halves
(`getLowBits` / `getHighBits`). -/
def BitVector.hammingDistance (v w : BitVector) : Nat :=
  ((List.range ADDRESS_SIZE_U64).map fun i =>
    popCount32 ((v.chunks.getD i 0 ^^^ w.chunks.getD i 0) % 2 ^ 32)
      + popCount32 ((v.chunks.getD i 0 ^^^ w.chunks.getD i 0) / 2 ^ 32)).sum

/-- Well-formedness established by every constructor: 16 chunks, each a 64-bit
value. -/
def BitVector.WF (v : BitVector) : Prop :=
  v.chunks.length = ADDRESS_SIZE_U64 ∧ ∀ c ∈ v.chunks, c < 2 ^ 64

instance (v : BitVector) : Decidable v.WF :=
  inferInstanceAs
    (Decidable (v.chunks.length = ADDRESS_SIZE_U64 ∧ ∀ c ∈ v.chunks, c < 2 ^ 64))

/-- Flip bit `j` of chunk `i` (the spec-level "flip exactly one bit of x"). -/
def BitVector.flipBit (v : BitVector) (i j : Nat) : BitVector :=
  ⟨v.chunks.set i (v.chunks.getD i 0 ^^^ 2 ^ j)⟩

/-! ## Run-scope resolution (`RiceDBClient.ts`)

`insert`, `search` and `deleteRun` compute the effective scope as
`runId || this.runId` — JavaScript `||`, under which the empty string is falsy
and falls through to the default. -/

/-- JavaScript `a || b` on `string | undefined` values. -/
def jsOr (a b : Option String) : Option String :=
  match a with
  | some s => if s = "" then b else some s
  | none => b

/-! ## Transports: state, constructors, fail-fast operations -/

/-- `GrpcClient` connection-relevant state.  The constructor stores the token
only when it is truthy (`if (token) this.token = token`). -/
structure GrpcClientState where
  host : String
  port : Nat
  token : Option String
deriving DecidableEq, Repr

/-- `new GrpcClient(host, port, token)`. -/
def GrpcClientState.create (host : String) (port : Nat) (token : Option String) :
    GrpcClientState :=
  { host := host, port := port,
    token := match token with
             | some t => if t = "" then none else some t
             | none => none }

/-- `HttpClient` connection-relevant state: the axios instance either carries a
default `Authorization` header or not, and `private token` starts `null`. -/
structure HttpClientState where
  host : String
  port : Nat
  token : Option String
  authHeader : Option String
deriving DecidableEq, Repr

/-- `new HttpClient(host, port)` — the declared constructor takes only host and
port; the orchestrating client passes a token as a third argument, which
JavaScript silently discards, so it is a parameter here that the body does not
use.  The axios instance is created without an `Authorization` header. -/
def HttpClientState.create (host : String) (port : Nat)
    (droppedTokenArg : Option String) : HttpClientState :=
  { host := host, port := port, token := none, authHeader := none }

/-- `setAuthHeader()`: installs `Bearer <token>` only when `this.token` is
truthy. -/
def HttpClientState.setAuthHeader (st : HttpClientState) : HttpClientState :=
  match st.token with
  | some t => if t = "" then st else { st with authHeader := some ("Bearer " ++ t) }
  | none => st

/-- `login(username, password)`: POSTs `/auth/login`, stores the token from the
response (supplied here as `respToken`) and installs the auth header. -/
def HttpClientState.login (st : HttpClientState) (respToken : String) :
    HttpClientState × String :=
  let st1 : HttpClientState := { st with token := some respToken }
  (st1.setAuthHeader, respToken)

/-- Outcome of a single transport method: the network requests it issued, the
diagnostic warnings it printed, and its result. -/
structure MethodOutcome (α : Type) where
  netRequests : List String
  warnings : List String
  result : Except SdkError α

/-- `HttpClient.subscribe(...)`: the body is a single throw of
"Subscribe is not supported via HTTP transport. Use gRPC." — no request is
issued. -/
def HttpClient.subscribe (st : HttpClientState) (filterType : String)
    (nodeId : Option Nat) (queryText : String) (threshold : Nat) :
    MethodOutcome Unit :=
  { netRequests := [], warnings := [],
    result := .error (.unsupported
      "Subscribe is not supported via HTTP transport. Use gRPC.") }

/-- `HttpClient.watchMemory(sessionId)`: single throw, no request. -/
def HttpClient.watchMemory (st : HttpClientState) (sessionId : String) :
    MethodOutcome Unit :=
  { netRequests := [], warnings := [],
    result := .error (.unsupported
      "Watch memory is not supported via HTTP transport. Use gRPC.") }

/-- `GrpcClient.getUser(username)`: single throw, no RPC. -/
def GrpcClient.getUser (st : GrpcClientState) (username : String) :
    MethodOutcome Unit :=
  { netRequests := [], warnings := [],
    result := .error (.unsupported
      "Get user is not supported via gRPC transport. Use HTTP.") }

/-- `GrpcClient.listUsers()`: single throw, no RPC. -/
def GrpcClient.listUsers (st : GrpcClientState) : MethodOutcome Unit :=
  { netRequests := [], warnings := [],
    result := .error (.unsupported
      "List users is not supported via gRPC transport. Use HTTP.") }

/-- `GrpcClient.sampleGraph(limit)`: single throw, no RPC. -/
def GrpcClient.sampleGraph (st : GrpcClientState) (limit : Nat) :
    MethodOutcome Unit :=
  { netRequests := [], warnings := [],
    result := .error (.unsupported
      "Sample graph is not supported via gRPC transport. Use HTTP.") }

/-- `GrpcClient.checkPermission(nodeId, userId, permissionType)`: prints a
warning and returns `false` without building a request or touching the
channel. -/
def GrpcClient.checkPermission (st : GrpcClientState) (nodeId userId : Nat)
    (permissionType : String) : MethodOutcome Bool :=
  { netRequests := [],
    warnings := ["checkPermission not supported via gRPC, assuming false"],
    result := .ok false }

/-! ## Orchestrating client (`RiceDBClient.ts`) -/

/-- The transport selector passed at construction. -/
inductive TransportMode where
  | grpc
  | http
  | auto
deriving DecidableEq, Repr

/-- The transport instance held in `this.client` after `connect`. -/
inductive ActiveClient where
  | grpc (st : GrpcClientState)
  | http (st : HttpClientState)
deriving DecidableEq, Repr

/-- Constructor arguments of `RiceDBClient` relevant to `connect`. -/
structure RiceCfg where
  host : String
  transport : TransportMode
  grpcPort : Nat
  httpPort : Nat
  token : Option String
  runId : Option String
deriving DecidableEq, Repr

/-- Observable outcome of `RiceDBClient.connect()`: the returned value or
propagated error, the `this.client` field, the `this.connected` flag, and the
warnings printed. -/
structure ConnectOutcome where
  result : Except SdkError Bool
  client : Option ActiveClient
  connected : Bool
  warnings : List String
deriving DecidableEq, Repr

/-- `RiceDBClient.connect()`.  The low-level connection attempts are oracles
(`grpcConnect`, `httpConnect`), one per transport kind, receiving the freshly
constructed transport state.  Forced modes construct the named transport and
let any failure propagate.  Auto mode tries gRPC; on any failure it prints
"gRPC connection failed, falling back to HTTP" and connects an `HttpClient`
instead (assigning `this.client` before awaiting, as the source does). -/
def RiceDBClient.connect (cfg : RiceCfg)
    (grpcConnect : GrpcClientState → Except SdkError Unit)
    (httpConnect : HttpClientState → Except SdkError Unit) : ConnectOutcome :=
  match cfg.transport with
  | .grpc =>
      let g := GrpcClientState.create cfg.host cfg.grpcPort cfg.token
      match grpcConnect g with
      | .ok _ => ⟨.ok true, some (.grpc g), true, []⟩
      | .error e => ⟨.error e, some (.grpc g), false, []⟩
  | .http =>
      let h := HttpClientState.create cfg.host cfg.httpPort cfg.token
      match httpConnect h with
      | .ok _ => ⟨.ok true, some (.http h), true, []⟩
      | .error e => ⟨.error e, some (.http h), false, []⟩
  | .auto =>
      let g := GrpcClientState.create cfg.host cfg.grpcPort cfg.token
      match grpcConnect g with
      | .ok _ => ⟨.ok true, some (.grpc g), true, []⟩
      | .error _ =>
          let h := HttpClientState.create cfg.host cfg.httpPort cfg.token
          match httpConnect h with
          | .ok _ =>
              ⟨.ok true, some (.http h), true,
                ["gRPC connection failed, falling back to HTTP"]⟩
          | .error e =>
              ⟨.error e, some (.http h), false,
                ["gRPC connection failed, falling back to HTTP"]⟩

/-- Mutable orchestrator state relevant to the scoped operations. -/
structure RiceState where
  client : Option ActiveClient
  runId : Option String
deriving DecidableEq, Repr

/-- `setRunId(runId)`. -/
def RiceDBClient.setRunId (st : RiceState) (runId : String) : RiceState :=
  { st with runId := some runId }

/-- The delegated call made to `this.client`, with the exact argument vector
(this is what the repository test suite asserts with `toHaveBeenCalledWith`). -/
inductive TransportCall where
  | insert (nodeId : Nat) (text : String) (metadata : String) (userId : Nat)
      (sessionId : Option String) (embedding : Option (List Nat))
      (runId : Option String)
  | search (query : String) (userId : Nat) (k : Nat)
      (sessionId : Option String) (filter : Option String)
      (queryEmbedding : Option (List Nat)) (runId : Option String)
  | deleteRun (runId : String)
deriving DecidableEq, Repr

/-- `RiceDBClient.insert(...)`: `checkConnected()` then delegate with the
resolved scope `runId || this.runId` as the final argument. -/
def RiceDBClient.insert (st : RiceState) (nodeId : Nat) (text : String)
    (metadata : String) (userId : Nat) (sessionId : Option String)
    (embedding : Option (List Nat)) (runId : Option String) :
    Except SdkError TransportCall :=
  match st.client with
  | none => .error .notConnected
  | some _ =>
      .ok (.insert nodeId text metadata userId sessionId embedding
        (jsOr runId st.runId))

/-- `RiceDBClient.search(...)`: `checkConnected()` then delegate with the
resolved scope `runId || this.runId` as the final argument. -/
def RiceDBClient.search (st : RiceState) (query : String) (userId : Nat)
    (k : Nat) (sessionId : Option String) (filter : Option String)
    (queryEmbedding : Option (List Nat)) (runId : Option String) :
    Except SdkError TransportCall :=
  match st.client with
  | none => .error .notConnected
  | some _ =>
      .ok (.search query userId k sessionId filter queryEmbedding
        (jsOr runId st.runId))

/-- Result shape of the transport-level `deleteRun`. -/
structure DeleteRunResult where
  success : Bool
  message : String
  count : Nat
deriving DecidableEq, Repr

/-- `RiceDBClient.deleteRun(runId?)`: `checkConnected()`, resolve
`targetRunId = runId || this.runId`, throw
"runId is required for deleteRun" when the result is falsy (absent or empty),
otherwise delegate to the active transport (`tr` is the transport oracle) and
return its result. -/
def RiceDBClient.deleteRun (tr : String → DeleteRunResult) (st : RiceState)
    (runId : Option String) : Except SdkError DeleteRunResult :=
  match st.client with
  | none => .error .notConnected
  | some _ =>
      match jsOr runId st.runId with
      | none => .error (.validation "runId is required for deleteRun")
      | some s =>
          if s = "" then .error (.validation "runId is required for deleteRun")
          else .ok (tr s)

/-! ## Bulk ingestion engine (`BaseRiceDBClient.fastIngest`) -/

/-- The chunking loop `for (i = 0; i < len; i += batchSize) slice(i, i + bs)`.
When `bs = 0` the JavaScript loop does not terminate; the model returns `[]`
there and every theorem about `fastIngest` assumes `0 < bs`. -/
def chunksOf (bs : Nat) (docs : List α) : List (List α) :=
  match docs, bs with
  | [], _ => []
  | _ :: _, 0 => []
  | d :: ds, b + 1 =>
      (d :: ds).take (b + 1) :: chunksOf (b + 1) ((d :: ds).drop (b + 1))
termination_by docs.length
decreasing_by
  simp only [List.length_drop, List.length_cons]
  omega

/-- Count reported by a `batchInsert` outcome (0 for a failure). -/
def respCount (resp : List α → Except String Nat) (c : List α) : Nat :=
  match resp c with
  | .ok n => n
  | .error _ => 0

/-- Whether a `batchInsert` outcome is a failure. -/
def respFails (resp : List α → Except String Nat) (c : List α) : Bool :=
  match resp c with
  | .ok _ => false
  | .error _ => true

/-- Message of a failing `batchInsert` outcome. -/
def respMsg (resp : List α → Except String Nat) (c : List α) : String :=
  match resp c with
  | .ok _ => ""
  | .error msg => msg

/-- Phase of one worker of the pool: at the loop head, awaiting a
`batchInsert` response for a dequeued chunk, or done (queue seen empty). -/
inductive WorkerPhase (α : Type) where
  | ready
  | awaiting (chunk : List α)
  | finished
deriving DecidableEq, Repr

/-- Event-loop state of a `fastIngest` run.  `calls` and `completed` are ghost
traces: the chunks passed to `batchInsert` so far, and the chunks whose
response has been processed. -/
structure IngestState (α : Type) where
  queue : List (List α)
  workers : List (WorkerPhase α)
  totalInserted : Nat
  failedBatches : Nat
  errors : List String
  calls : List (List α)
  completed : List (List α)
deriving DecidableEq, Repr

/-- Initial state: the chunk queue, and
`Array(Math.min(concurrency, chunks.length))` workers at their loop heads. -/
def initState (bs conc : Nat) (docs : List α) : IngestState α :=
  let cs := chunksOf bs docs
  { queue := cs
    workers := List.replicate (min conc cs.length) .ready
    totalInserted := 0
    failedBatches := 0
    errors := []
    calls := []
    completed := [] }

/-- One event-loop step of the worker pool.  A synchronous segment either
checks a non-empty queue and atomically shifts its head (issuing the
`batchInsert` for it), or sees the queue empty and leaves the loop; a response
arrival runs the continuation of `processChunk`, which on success adds the
count to the shared total and on failure increments the failure counter and
appends the error text while fewer than 10 messages are recorded. -/
inductive IngestStep (resp : List α → Except String Nat) :
    IngestState α → IngestState α → Prop where
  | dequeue (s : IngestState α) (i : Nat) (c : List α) (rest : List (List α))
      (hw : s.workers.get? i = some .ready) (hq : s.queue = c :: rest) :
      IngestStep resp s
        { s with queue := rest, workers := s.workers.set i (.awaiting c),
                 calls := s.calls ++ [c] }
  | exit (s : IngestState α) (i : Nat)
      (hw : s.workers.get? i = some .ready) (hq : s.queue = []) :
      IngestStep resp s { s with workers := s.workers.set i .finished }
  | completeOk (s : IngestState α) (i : Nat) (c : List α) (n : Nat)
      (hw : s.workers.get? i = some (.awaiting c)) (hr : resp c = .ok n) :
      IngestStep resp s
        { s with workers := s.workers.set i .ready,
                 totalInserted := s.totalInserted + n,
                 completed := s.completed ++ [c] }
  | completeErr (s : IngestState α) (i : Nat) (c : List α) (msg : String)
      (hw : s.workers.get? i = some (.awaiting c)) (hr : resp c = .error msg) :
      IngestStep resp s
        { s with workers := s.workers.set i .ready,
                 failedBatches := s.failedBatches + 1,
                 errors := if s.errors.length < 10 then s.errors ++ [msg]
                           else s.errors,
                 completed := s.completed ++ [c] }

/-- `Promise.all(workers)` has resolved: every worker left its loop. -/
def Complete (s : IngestState α) : Prop :=
  ∀ w ∈ s.workers, w = WorkerPhase.finished

/-- The chunk a worker is currently awaiting, as a multiset contribution. -/
def awaitingOf : WorkerPhase α → Multiset (List α)
  | .awaiting c => {c}
  | _ => 0

/-- Multiset of all in-flight chunks. -/
def awaitingMS (ws : List (WorkerPhase α)) : Multiset (List α) :=
  (ws.map awaitingOf).sum

/-- Report assembled after `Promise.all`: elapsed seconds
`(endMs - startMs) / 1000` and throughput `total / timeTaken`, reported as 0
when the elapsed time is 0. -/
structure IngestReport where
  totalInserted : Nat
  failedBatches : Nat
  errors : List String
  timeTaken : ℚ
  throughput : ℚ
deriving DecidableEq, Repr

/-- Assemble the returned report from the final state and the two clock
readings (milliseconds). -/
def mkReport (s : IngestState α) (startMs endMs : Nat) : IngestReport :=
  let timeTaken : ℚ := ((endMs - startMs : Nat) : ℚ) / 1000
  { totalInserted := s.totalInserted
    failedBatches := s.failedBatches
    errors := s.errors
    timeTaken := timeTaken
    throughput := if timeTaken > 0 then (s.totalInserted : ℚ) / timeTaken else 0 }

/-- The inductive invariant of a `fastIngest` run, relative to the initial
chunk list. -/
structure IngestInv (resp : List α → Except String Nat)
    (chunks0 : List (List α)) (s : IngestState α) : Prop where
  queue_calls : s.calls ++ s.queue = chunks0
  finished_queue : (∃ w ∈ s.workers, w = WorkerPhase.finished) → s.queue = []
  calls_split : (↑s.completed + awaitingMS s.workers : Multiset (List α)) = ↑s.calls
  total : s.totalInserted = (s.completed.map (respCount resp)).sum
  failed : s.failedBatches = s.completed.countP (respFails resp)
  errlen : s.errors.length = min s.failedBatches 10


/-! ## Concrete run used to instantiate the ingestion theorems -/

/-- A batchInsert oracle that reports the chunk size as the insert count. -/
def wResp : List Nat → Except String Nat := fun c => .ok c.length

/-- Four documents, ingested with batchSize 2 and concurrency 2. -/
def wDocs : List Nat := [10, 20, 30, 40]

/-- Initial state of the concrete run. -/
def wS0 : IngestState Nat :=
  ⟨[[10, 20], [30, 40]], [.ready, .ready], 0, 0, [], [], []⟩

/-- After worker 0 dequeues the first chunk. -/
def wS1 : IngestState Nat :=
  ⟨[[30, 40]], [.awaiting [10, 20], .ready], 0, 0, [], [[10, 20]], []⟩

/-- After worker 1 dequeues the second chunk. -/
def wS2 : IngestState Nat :=
  ⟨[], [.awaiting [10, 20], .awaiting [30, 40]], 0, 0, [],
    [[10, 20], [30, 40]], []⟩

/-- After the first batchInsert response (2 inserted). -/
def wS3 : IngestState Nat :=
  ⟨[], [.ready, .awaiting [30, 40]], 2, 0, [], [[10, 20], [30, 40]],
    [[10, 20]]⟩

/-- After worker 0 sees the empty queue and leaves its loop. -/
def wS4 : IngestState Nat :=
  ⟨[], [.finished, .awaiting [30, 40]], 2, 0, [], [[10, 20], [30, 40]],
    [[10, 20]]⟩

/-- After the second batchInsert response (2 more inserted). -/
def wS5 : IngestState Nat :=
  ⟨[], [.finished, .ready], 4, 0, [], [[10, 20], [30, 40]],
    [[10, 20], [30, 40]]⟩

/-- After worker 1 leaves its loop: the run is complete. -/
def wS6 : IngestState Nat :=
  ⟨[], [.finished, .finished], 4, 0, [], [[10, 20], [30, 40]],
    [[10, 20], [30, 40]]⟩

/-! # Theorems

First the library of helper lemmas (population count, list and multiset
plumbing, run invariants), then one theorem per specification claim. -/

theorem bitCountAux_zero (fuel : Nat) : bitCountAux fuel 0 = 0 := by
  cases fuel <;> simp [bitCountAux]

theorem bitCountAux_congr : ∀ f g n : Nat, n ≤ f → n ≤ g →
    bitCountAux f n = bitCountAux g n := by
  intro f
  induction f with
  | zero =>
      intro g n hf _
      have hn : n = 0 := Nat.le_zero.mp hf
      subst hn
      rw [bitCountAux_zero, bitCountAux_zero]
  | succ f ih =>
      intro g n hf hg
      match g with
      | 0 =>
          have hn : n = 0 := Nat.le_zero.mp hg
          subst hn
          rw [bitCountAux_zero, bitCountAux_zero]
      | g + 1 =>
          by_cases hn : n = 0
          · subst hn
            rw [bitCountAux_zero, bitCountAux_zero]
          · have hlt : n / 2 < n := Nat.div_lt_self (Nat.pos_of_ne_zero hn) (by omega)
            simp only [bitCountAux, hn, if_false]
            rw [ih g (n / 2) (by omega) (by omega)]

theorem bitCount_unfold (n : Nat) (h : n ≠ 0) :
    bitCount n = n % 2 + bitCount (n / 2) := by
  match n, h with
  | n + 1, _ =>
      show bitCountAux (n + 1) (n + 1) = _
      simp only [bitCountAux, Nat.succ_ne_zero, if_false]
      congr 1
      exact bitCountAux_congr n ((n + 1) / 2) ((n + 1) / 2) (by omega) (Nat.le_refl _)

theorem bitCount_two_pow_mul_add : ∀ k y x : Nat, x < 2 ^ k →
    bitCount (2 ^ k * y + x) = bitCount y + bitCount x := by
  intro k
  induction k with
  | zero =>
      intro y x hx
      have hx0 : x = 0 := by omega
      subst hx0
      have h0 : bitCount 0 = 0 := rfl
      simp [h0]
  | succ k ih =>
      intro y x hx
      have hpow : (2 : Nat) ^ (k + 1) = 2 * 2 ^ k := by ring
      have hsplit : 2 ^ (k + 1) * y = 2 * (2 ^ k * y) := by ring
      by_cases h0 : 2 ^ (k + 1) * y + x = 0
      · obtain ⟨hy, hx0⟩ := Nat.add_eq_zero.mp h0
        have hne : (2 : Nat) ^ (k + 1) ≠ 0 := Nat.pos_iff_ne_zero.mp (Nat.two_pow_pos (k + 1))
        have hy0 : y = 0 := by
          rcases Nat.mul_eq_zero.mp hy with h | h
          · exact absurd h hne
          · exact h
        subst hy0; subst hx0
        have h00 : bitCount 0 = 0 := rfl
        simp [h00]
      · rw [bitCount_unfold _ h0]
        have e1 : (2 ^ (k + 1) * y + x) % 2 = x % 2 := by omega
        have e2 : (2 ^ (k + 1) * y + x) / 2 = 2 ^ k * y + x / 2 := by omega
        rw [e1, e2, ih y (x / 2) (by omega)]
        by_cases hx0 : x = 0
        · subst hx0
          have h00 : bitCount 0 = 0 := rfl
          simp [h00]
        · rw [bitCount_unfold x hx0]; omega

theorem bitCount_le (k : Nat) : ∀ x : Nat, x < 2 ^ k → bitCount x ≤ k := by
  induction k with
  | zero =>
      intro x hx
      have hx0 : x = 0 := by omega
      subst hx0
      exact Nat.le_refl _
  | succ k ih =>
      intro x hx
      by_cases hx0 : x = 0
      · subst hx0
        exact Nat.zero_le _
      · rw [bitCount_unfold x hx0]
        have hpow : (2 : Nat) ^ (k + 1) = 2 * 2 ^ k := by ring
        have := ih (x / 2) (by omega)
        omega

theorem bitCount_split (k x : Nat) :
    bitCount x = bitCount (x / 2 ^ k) + bitCount (x % 2 ^ k) := by
  have h := bitCount_two_pow_mul_add k (x / 2 ^ k) (x % 2 ^ k)
    (Nat.mod_lt x (Nat.two_pow_pos k))
  calc bitCount x = bitCount (2 ^ k * (x / 2 ^ k) + x % 2 ^ k) := by
        rw [Nat.div_add_mod]
    _ = bitCount (x / 2 ^ k) + bitCount (x % 2 ^ k) := h

theorem land_split (k x y m : Nat) (hx : x < 2 ^ k) :
    (2 ^ k * y + x) &&& m = 2 ^ k * (y &&& m / 2 ^ k) + (x &&& m % 2 ^ k) := by
  have hxm : (x &&& m % 2 ^ k) < 2 ^ k :=
    Nat.and_lt_two_pow x (Nat.mod_lt m (Nat.two_pow_pos k))
  apply Nat.eq_of_testBit_eq
  intro j
  rw [Nat.testBit_and, Nat.testBit_mul_pow_two_add y hx j,
      Nat.testBit_mul_pow_two_add (y &&& m / 2 ^ k) hxm j]
  by_cases hj : j < k
  · simp [hj, Nat.testBit_and, Nat.testBit_mod_two_pow]
  · rw [if_neg hj, if_neg hj, Nat.testBit_and]
    congr 1
    rw [← Nat.shiftRight_eq_div_pow, Nat.testBit_shiftRight]
    congr 1
    omega

theorem land_split8 (x y m : Nat) (hx : x < 256) :
    (256 * y + x) &&& m = 256 * (y &&& m / 256) + (x &&& m % 256) := by
  have h := land_split 8 x y m (by norm_num; exact hx)
  norm_num at h
  exact h

theorem land_bytes55 (x0 x1 x2 x3 : Nat) (h0 : x0 < 256) (h1 : x1 < 256)
    (h2 : x2 < 256) :
    (256 * (256 * (256 * x3 + x2) + x1) + x0) &&& 0x55555555
      = 256 * (256 * (256 * (x3 &&& 85) + (x2 &&& 85)) + (x1 &&& 85))
          + (x0 &&& 85) := by
  rw [land_split8 x0 _ _ h0, land_split8 x1 _ _ h1, land_split8 x2 _ _ h2]

theorem land_bytes33 (x0 x1 x2 x3 : Nat) (h0 : x0 < 256) (h1 : x1 < 256)
    (h2 : x2 < 256) :
    (256 * (256 * (256 * x3 + x2) + x1) + x0) &&& 0x33333333
      = 256 * (256 * (256 * (x3 &&& 51) + (x2 &&& 51)) + (x1 &&& 51))
          + (x0 &&& 51) := by
  rw [land_split8 x0 _ _ h0, land_split8 x1 _ _ h1, land_split8 x2 _ _ h2]

theorem land_bytes0f (x0 x1 x2 x3 : Nat) (h0 : x0 < 256) (h1 : x1 < 256)
    (h2 : x2 < 256) :
    (256 * (256 * (256 * x3 + x2) + x1) + x0) &&& 0xf0f0f0f
      = 256 * (256 * (256 * (x3 &&& 15) + (x2 &&& 15)) + (x1 &&& 15))
          + (x0 &&& 15) := by
  rw [land_split8 x0 _ _ h0, land_split8 x1 _ _ h1, land_split8 x2 _ _ h2]

theorem pb2_le (s : Nat) : pb2 s ≤ 102 := by
  unfold pb2
  have h1 : (s &&& 51) ≤ 51 := Nat.and_le_right
  have h2 : (s / 4 &&& 51) ≤ 51 := Nat.and_le_right
  omega

set_option maxRecDepth 4000 in
theorem pbt_facts : ∀ b, b < 256 →
    (pbt b + pbt b / 16) % 16 = bitCount b ∧ pbt b % 16 ≤ 4 := by decide

set_option maxRecDepth 4000 in
theorem land85_cross : ∀ b, b < 256 → ∀ c, c < 2 →
    (b / 2 + 128 * c) &&& 85 = b / 2 &&& 85 := by decide

set_option maxRecDepth 4000 in
theorem land51_cross : ∀ s, s < 256 → ∀ c, c < 4 →
    (s / 4 + 64 * c) &&& 51 = s / 4 &&& 51 := by decide

set_option maxRecDepth 4000 in
theorem land15_mod : ∀ w, w < 256 → w &&& 15 = w % 16 := by decide

theorem bitCount_bytes (x0 x1 x2 x3 : Nat) (h0 : x0 < 256) (h1 : x1 < 256)
    (h2 : x2 < 256) :
    bitCount (256 * (256 * (256 * x3 + x2) + x1) + x0)
      = bitCount x3 + bitCount x2 + bitCount x1 + bitCount x0 := by
  have a0 := bitCount_two_pow_mul_add 8 (256 * (256 * x3 + x2) + x1) x0
    (by norm_num; exact h0)
  have a1 := bitCount_two_pow_mul_add 8 (256 * x3 + x2) x1 (by norm_num; exact h1)
  have a2 := bitCount_two_pow_mul_add 8 x3 x2 (by norm_num; exact h2)
  norm_num at a0 a1 a2
  rw [a0, a1, a2]

theorem swar_stage1 (p b0 b1 b2 b3 : Nat) (hb0 : b0 < 256) (hb1 : b1 < 256)
    (hb2 : b2 < 256) (hb3 : b3 < 256)
    (hpe : p = 256 * (256 * (256 * b3 + b2) + b1) + b0) :
    p - (p / 2 &&& 0x55555555)
      = 256 * (256 * (256 * pb1 b3 + pb1 b2) + pb1 b1) + pb1 b0 := by
  have c0 : b0 / 2 + 128 * (b1 % 2) < 256 := by omega
  have c1 : b1 / 2 + 128 * (b2 % 2) < 256 := by omega
  have c2 : b2 / 2 + 128 * (b3 % 2) < 256 := by omega
  have hdiv2 : p / 2
      = 256 * (256 * (256 * (b3 / 2) + (b2 / 2 + 128 * (b3 % 2)))
          + (b1 / 2 + 128 * (b2 % 2))) + (b0 / 2 + 128 * (b1 % 2)) := by omega
  have h1 : p / 2 &&& 0x55555555
      = 256 * (256 * (256 * (b3 / 2 &&& 85) + (b2 / 2 &&& 85)) + (b1 / 2 &&& 85))
          + (b0 / 2 &&& 85) := by
    rw [hdiv2, land_bytes55 _ _ _ (b3 / 2) c0 c1 c2,
        land85_cross b0 hb0 (b1 % 2) (by omega),
        land85_cross b1 hb1 (b2 % 2) (by omega),
        land85_cross b2 hb2 (b3 % 2) (by omega)]
  have l0 : b0 / 2 &&& 85 ≤ b0 / 2 := Nat.and_le_left
  have l1 : b1 / 2 &&& 85 ≤ b1 / 2 := Nat.and_le_left
  have l2 : b2 / 2 &&& 85 ≤ b2 / 2 := Nat.and_le_left
  have l3 : b3 / 2 &&& 85 ≤ b3 / 2 := Nat.and_le_left
  rw [h1]
  unfold pb1
  omega

theorem swar_stage2 (s0 s1 s2 s3 : Nat) (h0 : s0 < 256) (h1 : s1 < 256)
    (h2 : s2 < 256) (h3 : s3 < 256) :
    ((256 * (256 * (256 * s3 + s2) + s1) + s0) &&& 0x33333333)
      + ((256 * (256 * (256 * s3 + s2) + s1) + s0) / 4 &&& 0x33333333)
    = 256 * (256 * (256 * pb2 s3 + pb2 s2) + pb2 s1) + pb2 s0 := by
  have hdiv4 : (256 * (256 * (256 * s3 + s2) + s1) + s0) / 4
      = 256 * (256 * (256 * (s3 / 4) + (s2 / 4 + 64 * (s3 % 4)))
          + (s1 / 4 + 64 * (s2 % 4))) + (s0 / 4 + 64 * (s1 % 4)) := by omega
  have d0 : s0 / 4 + 64 * (s1 % 4) < 256 := by omega
  have d1 : s1 / 4 + 64 * (s2 % 4) < 256 := by omega
  have d2 : s2 / 4 + 64 * (s3 % 4) < 256 := by omega
  rw [land_bytes33 _ _ _ s3 h0 h1 h2, hdiv4,
      land_bytes33 _ _ _ (s3 / 4) d0 d1 d2,
      land51_cross s0 h0 (s1 % 4) (by omega),
      land51_cross s1 h1 (s2 % 4) (by omega),
      land51_cross s2 h2 (s3 % 4) (by omega)]
  unfold pb2
  ring

theorem swar_stage3 (t0 t1 t2 t3 : Nat) (h0 : t0 ≤ 102) (h1 : t1 ≤ 102)
    (h2 : t2 ≤ 102) (h3 : t3 ≤ 102)
    (n1 : t1 % 16 ≤ 4) (n2 : t2 % 16 ≤ 4) (n3 : t3 % 16 ≤ 4) :
    ((256 * (256 * (256 * t3 + t2) + t1) + t0)
        + (256 * (256 * (256 * t3 + t2) + t1) + t0) / 16) &&& 0xf0f0f0f
      = 256 * (256 * (256 * ((t3 + t3 / 16) % 16) + ((t2 + t2 / 16) % 16))
          + ((t1 + t1 / 16) % 16)) + ((t0 + t0 / 16) % 16) := by
  have hadd : (256 * (256 * (256 * t3 + t2) + t1) + t0)
        + (256 * (256 * (256 * t3 + t2) + t1) + t0) / 16
      = 256 * (256 * (256 * (t3 + t3 / 16)
            + (t2 + (t2 / 16 + 16 * (t3 % 16))))
          + (t1 + (t1 / 16 + 16 * (t2 % 16))))
        + (t0 + (t0 / 16 + 16 * (t1 % 16))) := by omega
  have w0 : t0 + (t0 / 16 + 16 * (t1 % 16)) < 256 := by omega
  have w1 : t1 + (t1 / 16 + 16 * (t2 % 16)) < 256 := by omega
  have w2 : t2 + (t2 / 16 + 16 * (t3 % 16)) < 256 := by omega
  rw [hadd, land_bytes0f _ _ _ (t3 + t3 / 16) w0 w1 w2,
      land15_mod _ (by omega), land15_mod _ (by omega),
      land15_mod _ (by omega), land15_mod _ (by omega)]
  have e0 : (t0 + (t0 / 16 + 16 * (t1 % 16))) % 16 = (t0 + t0 / 16) % 16 := by
    omega
  have e1 : (t1 + (t1 / 16 + 16 * (t2 % 16))) % 16 = (t1 + t1 / 16) % 16 := by
    omega
  have e2 : (t2 + (t2 / 16 + 16 * (t3 % 16))) % 16 = (t2 + t2 / 16) % 16 := by
    omega
  rw [e0, e1, e2]

theorem swar_horizontal (d0 d1 d2 d3 : Nat) (h0 : d0 ≤ 8) (h1 : d1 ≤ 8)
    (h2 : d2 ≤ 8) (h3 : d3 ≤ 8) :
    (256 * (256 * (256 * d3 + d2) + d1) + d0) * 0x1010101 % 2 ^ 32 / 2 ^ 24
      = d3 + d2 + d1 + d0 := by
  have hexp : (256 * (256 * (256 * d3 + d2) + d1) + d0) * 0x1010101
      = 4294967296 * (d1 + d2 + d3 + 256 * (d2 + d3) + 65536 * d3)
        + (d0 + 256 * (d0 + d1) + 65536 * (d0 + d1 + d2)
            + 16777216 * (d0 + d1 + d2 + d3)) := by ring
  have e32 : (2 : Nat) ^ 32 = 4294967296 := by norm_num
  have e24 : (2 : Nat) ^ 24 = 16777216 := by norm_num
  rw [hexp, e32, e24]
  have hm : (4294967296 * (d1 + d2 + d3 + 256 * (d2 + d3) + 65536 * d3)
        + (d0 + 256 * (d0 + d1) + 65536 * (d0 + d1 + d2)
            + 16777216 * (d0 + d1 + d2 + d3))) % 4294967296
      = d0 + 256 * (d0 + d1) + 65536 * (d0 + d1 + d2)
          + 16777216 * (d0 + d1 + d2 + d3) := by omega
  rw [hm]
  omega

theorem popCount32_correct (p : Nat) (hp : p < 2 ^ 32) :
    popCount32 p = bitCount p := by
  have hp4 : p < 4294967296 := by norm_num at hp; exact hp
  obtain ⟨b0, b1, b2, b3, hb0, hb1, hb2, hb3, hpe⟩ : ∃ b0 b1 b2 b3 : Nat,
      b0 < 256 ∧ b1 < 256 ∧ b2 < 256 ∧ b3 < 256 ∧
      p = 256 * (256 * (256 * b3 + b2) + b1) + b0 :=
    ⟨p % 256, p / 256 % 256, p / 65536 % 256, p / 16777216,
      by omega, by omega, by omega, by omega, by omega⟩
  have hs0 : pb1 b0 < 256 := by unfold pb1; omega
  have hs1 : pb1 b1 < 256 := by unfold pb1; omega
  have hs2 : pb1 b2 < 256 := by unfold pb1; omega
  have hs3 : pb1 b3 < 256 := by unfold pb1; omega
  show (((p - (p / 2 &&& 0x55555555)) &&& 0x33333333)
        + ((p - (p / 2 &&& 0x55555555)) / 4 &&& 0x33333333)
      + (((p - (p / 2 &&& 0x55555555)) &&& 0x33333333)
        + ((p - (p / 2 &&& 0x55555555)) / 4 &&& 0x33333333)) / 16
      &&& 0xf0f0f0f) * 0x1010101 % 2 ^ 32 / 2 ^ 24 = bitCount p
  rw [swar_stage1 p b0 b1 b2 b3 hb0 hb1 hb2 hb3 hpe,
      swar_stage2 (pb1 b0) (pb1 b1) (pb1 b2) (pb1 b3) hs0 hs1 hs2 hs3]
  have hpbt0 : pb2 (pb1 b0) = pbt b0 := rfl
  have hpbt1 : pb2 (pb1 b1) = pbt b1 := rfl
  have hpbt2 : pb2 (pb1 b2) = pbt b2 := rfl
  have hpbt3 : pb2 (pb1 b3) = pbt b3 := rfl
  rw [hpbt0, hpbt1, hpbt2, hpbt3,
      swar_stage3 (pbt b0) (pbt b1) (pbt b2) (pbt b3)
        (pb2_le (pb1 b0)) (pb2_le (pb1 b1)) (pb2_le (pb1 b2)) (pb2_le (pb1 b3))
        (pbt_facts b1 hb1).2 (pbt_facts b2 hb2).2 (pbt_facts b3 hb3).2,
      (pbt_facts b0 hb0).1, (pbt_facts b1 hb1).1,
      (pbt_facts b2 hb2).1, (pbt_facts b3 hb3).1,
      swar_horizontal (bitCount b0) (bitCount b1) (bitCount b2) (bitCount b3)
        (bitCount_le 8 b0 (by norm_num; exact hb0))
        (bitCount_le 8 b1 (by norm_num; exact hb1))
        (bitCount_le 8 b2 (by norm_num; exact hb2))
        (bitCount_le 8 b3 (by norm_num; exact hb3)),
      hpe, bitCount_bytes b0 b1 b2 b3 hb0 hb1 hb2]

theorem popCount32_le (p : Nat) (hp : p < 2 ^ 32) : popCount32 p ≤ 32 := by
  rw [popCount32_correct p hp]
  exact bitCount_le 32 p hp

theorem chunk_pair_eq_bitCount (z : Nat) (hz : z < 2 ^ 64) :
    popCount32 (z % 2 ^ 32) + popCount32 (z / 2 ^ 32) = bitCount z := by
  have hlo : z % 2 ^ 32 < 2 ^ 32 := Nat.mod_lt z (Nat.two_pow_pos 32)
  have hhi : z / 2 ^ 32 < 2 ^ 32 := by
    have h64 : (2 : Nat) ^ 64 = 2 ^ 32 * 2 ^ 32 := by norm_num
    rw [h64] at hz
    exact Nat.div_lt_of_lt_mul hz
  rw [popCount32_correct _ hlo, popCount32_correct _ hhi, bitCount_split 32 z]
  omega

theorem bitCount_two_pow (k : Nat) : bitCount (2 ^ k) = 1 := by
  have h := bitCount_two_pow_mul_add k 1 0 (Nat.two_pow_pos k)
  have h1 : bitCount 1 = 1 := rfl
  have h0 : bitCount 0 = 0 := rfl
  simpa [h1, h0] using h

theorem bitCount_xor_two_pow : ∀ j z : Nat,
    bitCount (z ^^^ 2 ^ j) = bitCount z + 1 ∨
    bitCount z = bitCount (z ^^^ 2 ^ j) + 1 := by
  intro j
  induction j with
  | zero =>
      intro z
      simp only [pow_zero]
      by_cases hz1 : z = 1
      · subst hz1
        right
        rw [Nat.xor_self]
        rfl
      · by_cases hz0 : z = 0
        · subst hz0
          left
          rw [Nat.zero_xor]
          rfl
        · have hne : z ^^^ 1 ≠ 0 := by
            rw [Ne, Nat.xor_eq_zero]
            exact hz1
          have hdiv : (z ^^^ 1) / 2 = z / 2 := by
            rw [Nat.xor_div_two]
            norm_num
          have hmod : (z ^^^ 1) % 2 = (z + 1) % 2 := Nat.xor_mod_two_eq
          rw [bitCount_unfold _ hne, hdiv, hmod, bitCount_unfold z hz0]
          omega
  | succ j ih =>
      intro z
      have hpow : (2 : Nat) ^ (j + 1) = 2 * 2 ^ j := by ring
      by_cases hzp : z = 2 ^ (j + 1)
      · subst hzp
        right
        rw [Nat.xor_self, bitCount_two_pow]
        rfl
      · by_cases hz0 : z = 0
        · subst hz0
          left
          rw [Nat.zero_xor, bitCount_two_pow]
          rfl
        · have hne : z ^^^ 2 ^ (j + 1) ≠ 0 := by
            rw [Ne, Nat.xor_eq_zero]
            exact hzp
          have hdiv : (z ^^^ 2 ^ (j + 1)) / 2 = z / 2 ^^^ 2 ^ j := by
            rw [Nat.xor_div_two]
            congr 1
            omega
          have hmod : (z ^^^ 2 ^ (j + 1)) % 2 = z % 2 := by
            rw [Nat.xor_mod_two_eq]
            omega
          rw [bitCount_unfold _ hne, hdiv, hmod, bitCount_unfold z hz0]
          rcases ih (z / 2) with h | h
          · left; omega
          · right; omega

theorem getD_mem : ∀ (l : List Nat) (i : Nat), i < l.length → l.getD i 0 ∈ l := by
  intro l
  induction l with
  | nil =>
      intro i h
      simp at h
  | cons a l ih =>
      intro i h
      cases i with
      | zero =>
          rw [List.getD_cons_zero]
          exact List.mem_cons_self a l
      | succ i =>
          rw [List.getD_cons_succ]
          exact List.mem_cons_of_mem a (ih i (by simpa using h))

theorem getD_set_self : ∀ (l : List Nat) (i a : Nat), i < l.length →
    (l.set i a).getD i 0 = a := by
  intro l
  induction l with
  | nil =>
      intro i a h
      simp at h
  | cons x l ih =>
      intro i a h
      cases i with
      | zero => rfl
      | succ i =>
          show (x :: l.set i a).getD (i + 1) 0 = a
          rw [List.getD_cons_succ]
          exact ih i a (by simpa using h)

theorem getD_set_ne : ∀ (l : List Nat) (i k a : Nat), i ≠ k →
    (l.set i a).getD k 0 = l.getD k 0 := by
  intro l
  induction l with
  | nil =>
      intro i k a _
      rfl
  | cons x l ih =>
      intro i k a hik
      cases i with
      | zero =>
          cases k with
          | zero => exact absurd rfl hik
          | succ k => rfl
      | succ i =>
          cases k with
          | zero => rfl
          | succ k =>
              show (x :: l.set i a).getD (k + 1) 0 = (x :: l).getD (k + 1) 0
              rw [List.getD_cons_succ, List.getD_cons_succ]
              exact ih i k a (by omega)

theorem sum_range_update (n i : Nat) (f g : Nat → Nat) (hi : i < n)
    (hfg : ∀ k, k < n → k ≠ i → f k = g k) :
    ((List.range n).map f).sum + g i = ((List.range n).map g).sum + f i := by
  induction n with
  | zero => exact absurd hi (Nat.not_lt_zero i)
  | succ m ih =>
      rw [List.range_succ, List.map_append, List.map_append,
          List.sum_append, List.sum_append]
      simp only [List.map_cons, List.map_nil, List.sum_cons, List.sum_nil]
      by_cases him : i = m
      · subst him
        have hmap : (List.range i).map f = (List.range i).map g := by
          apply List.map_congr_left
          intro a ha
          have : a < i := List.mem_range.mp ha
          exact hfg a (by omega) (by omega)
        rw [hmap]
        omega
      · have hfm : f m = g m := hfg m (by omega) (fun h => him h.symm)
        have hih := ih (by omega) (fun k hk hki => hfg k (by omega) hki)
        omega

theorem hammingDistance_eq_bitCount (v w : BitVector) (hv : v.WF) (hw : w.WF) :
    v.hammingDistance w
      = ((List.range ADDRESS_SIZE_U64).map fun i =>
          bitCount (v.chunks.getD i 0 ^^^ w.chunks.getD i 0)).sum := by
  unfold BitVector.hammingDistance
  refine congrArg List.sum ?_
  apply List.map_congr_left
  intro i hi
  have hi16 : i < ADDRESS_SIZE_U64 := List.mem_range.mp hi
  have hvc : v.chunks.getD i 0 < 2 ^ 64 :=
    hv.2 _ (getD_mem _ _ (by rw [hv.1]; exact hi16))
  have hwc : w.chunks.getD i 0 < 2 ^ 64 :=
    hw.2 _ (getD_mem _ _ (by rw [hw.1]; exact hi16))
  exact chunk_pair_eq_bitCount _ (Nat.xor_lt_two_pow hvc hwc)

theorem hammingDistance_self (v : BitVector) : v.hammingDistance v = 0 := by
  unfold BitVector.hammingDistance
  apply List.sum_eq_zero
  intro x hx
  simp only [List.mem_map, List.mem_range] at hx
  obtain ⟨i, _, rfl⟩ := hx
  rw [Nat.xor_self]
  decide

theorem hammingDistance_comm (v w : BitVector) :
    v.hammingDistance w = w.hammingDistance v := by
  unfold BitVector.hammingDistance
  refine congrArg List.sum ?_
  apply List.map_congr_left
  intro i _
  rw [Nat.xor_comm]

theorem hammingDistance_le (v w : BitVector) (hv : v.WF) (hw : w.WF) :
    v.hammingDistance w ≤ 1024 := by
  rw [hammingDistance_eq_bitCount v w hv hw]
  have h := List.sum_le_card_nsmul
    ((List.range ADDRESS_SIZE_U64).map fun i =>
      bitCount (v.chunks.getD i 0 ^^^ w.chunks.getD i 0)) 64 ?_
  · simpa [ADDRESS_SIZE_U64] using h
  · intro x hx
    simp only [List.mem_map, List.mem_range] at hx
    obtain ⟨i, hi, rfl⟩ := hx
    have hvc : v.chunks.getD i 0 < 2 ^ 64 :=
      hv.2 _ (getD_mem _ _ (by rw [hv.1]; exact hi))
    have hwc : w.chunks.getD i 0 < 2 ^ 64 :=
      hw.2 _ (getD_mem _ _ (by rw [hw.1]; exact hi))
    exact bitCount_le 64 _ (Nat.xor_lt_two_pow hvc hwc)

theorem flipBit_WF (v : BitVector) (i j : Nat) (hv : v.WF)
    (hi : i < ADDRESS_SIZE_U64) (hj : j < 64) : (v.flipBit i j).WF := by
  constructor
  · show (v.chunks.set i _).length = _
    rw [List.length_set]
    exact hv.1
  · intro c hc
    rcases List.mem_or_eq_of_mem_set hc with h | h
    · exact hv.2 c h
    · subst h
      have hvc : v.chunks.getD i 0 < 2 ^ 64 :=
        hv.2 _ (getD_mem _ _ (by rw [hv.1]; exact hi))
      have hpj : (2 : Nat) ^ j < 2 ^ 64 := Nat.pow_lt_pow_of_lt (by omega) hj
      exact Nat.xor_lt_two_pow hvc hpj

theorem hammingDistance_flip (v w : BitVector) (hv : v.WF) (hw : w.WF)
    (i j : Nat) (hi : i < ADDRESS_SIZE_U64) (hj : j < 64) :
    (v.flipBit i j).hammingDistance w = v.hammingDistance w + 1 ∨
    v.hammingDistance w = (v.flipBit i j).hammingDistance w + 1 := by
  have hWFf : (v.flipBit i j).WF := flipBit_WF v i j hv hi hj
  rw [hammingDistance_eq_bitCount _ _ hWFf hw,
      hammingDistance_eq_bitCount _ _ hv hw]
  have hfg : ∀ k, k < ADDRESS_SIZE_U64 → k ≠ i →
      bitCount ((v.flipBit i j).chunks.getD k 0 ^^^ w.chunks.getD k 0)
        = bitCount (v.chunks.getD k 0 ^^^ w.chunks.getD k 0) := by
    intro k _ hki
    have : (v.flipBit i j).chunks.getD k 0 = v.chunks.getD k 0 :=
      getD_set_ne v.chunks i k _ (fun h => hki h.symm)
    rw [this]
  have key := sum_range_update ADDRESS_SIZE_U64 i
    (fun k => bitCount ((v.flipBit i j).chunks.getD k 0 ^^^ w.chunks.getD k 0))
    (fun k => bitCount (v.chunks.getD k 0 ^^^ w.chunks.getD k 0)) hi hfg
  simp only [] at key
  have hfi : (v.flipBit i j).chunks.getD i 0 = v.chunks.getD i 0 ^^^ 2 ^ j :=
    getD_set_self v.chunks i _ (by rw [hv.1]; exact hi)
  rw [hfi] at key
  have hrearr : (v.chunks.getD i 0 ^^^ 2 ^ j) ^^^ w.chunks.getD i 0
      = (v.chunks.getD i 0 ^^^ w.chunks.getD i 0) ^^^ 2 ^ j := by
    rw [Nat.xor_assoc, Nat.xor_comm (2 ^ j), ← Nat.xor_assoc]
  rw [hrearr] at key
  rcases bitCount_xor_two_pow j (v.chunks.getD i 0 ^^^ w.chunks.getD i 0)
    with h | h
  · left; omega
  · right; omega

/-- C4: `hammingDistance` on 16-chunk BitVectors is a metric-like function
into the interval from 0 to 1024: it is zero on equal vectors, symmetric,
bounded by 1024 on well-formed vectors, flipping exactly one bit of `x`
changes the distance to any fixed `y` by exactly one in one direction, and
for `A` sixteen zero chunks and `B` with exactly one chunk equal to 1 the
distance is 1. -/
theorem hamming_metric :
    (∀ v : BitVector, v.hammingDistance v = 0) ∧
    (∀ v w : BitVector, v.hammingDistance w = w.hammingDistance v) ∧
    (∀ v w : BitVector, v.WF → w.WF → v.hammingDistance w ≤ 1024) ∧
    (∀ v w : BitVector, v.WF → w.WF → ∀ i j : Nat,
      i < ADDRESS_SIZE_U64 → j < 64 →
      (v.flipBit i j).hammingDistance w = v.hammingDistance w + 1 ∨
      v.hammingDistance w = (v.flipBit i j).hammingDistance w + 1) ∧
    BitVector.hammingDistance ⟨List.replicate 16 0⟩ ⟨1 :: List.replicate 15 0⟩
      = 1 :=
  ⟨hammingDistance_self, hammingDistance_comm, hammingDistance_le,
   fun v w hv hw i j hi hj => hammingDistance_flip v w hv hw i j hi hj,
   by decide⟩

/-- Witness for C4 at concrete vectors: the all-zero vector and the vector
with a single 1-chunk are well formed, and the bound and flip conjuncts are
instantiated there. -/
theorem hamming_metric_witness :
    BitVector.WF ⟨List.replicate 16 0⟩ ∧
    BitVector.WF ⟨1 :: List.replicate 15 0⟩ ∧
    BitVector.hammingDistance ⟨List.replicate 16 0⟩ ⟨1 :: List.replicate 15 0⟩
        ≤ 1024 ∧
    (((⟨List.replicate 16 0⟩ : BitVector).flipBit 0 0).hammingDistance
          ⟨1 :: List.replicate 15 0⟩
        = BitVector.hammingDistance ⟨List.replicate 16 0⟩
            ⟨1 :: List.replicate 15 0⟩ + 1 ∨
      BitVector.hammingDistance ⟨List.replicate 16 0⟩ ⟨1 :: List.replicate 15 0⟩
        = ((⟨List.replicate 16 0⟩ : BitVector).flipBit 0 0).hammingDistance
            ⟨1 :: List.replicate 15 0⟩ + 1) :=
  ⟨by decide, by decide,
   hamming_metric.2.2.1 _ _ (by decide) (by decide),
   hamming_metric.2.2.2.1 _ _ (by decide) (by decide) 0 0 (by decide) (by decide)⟩

/-- C5: every successfully constructed BitVector has exactly 16 chunks of
64-bit values — the no-argument constructor yields 16 zero chunks, `random`
yields 16 chunks, and a chunk list of any other length is rejected with the
validation error; `toList` returns the chunks unchanged (all operations are
pure, so no operation changes the chunk count after construction). -/
theorem bitVector_chunk_invariant :
    (∀ v : BitVector, BitVector.make none = .ok v →
      v.WF ∧ v.chunks = List.replicate 16 0) ∧
    (∀ low high : Nat → Nat, (BitVector.random low high).WF) ∧
    (∀ cs : List Nat, cs.length ≠ ADDRESS_SIZE_U64 →
      BitVector.make (some cs)
        = .error (.validation "BitVector must have 16 chunks")) ∧
    (∀ (cs : List Nat) (v : BitVector), BitVector.make (some cs) = .ok v →
      v.WF) ∧
    (∀ v : BitVector, v.toList = v.chunks) := by
  refine ⟨?_, ?_, ?_, ?_, fun v => rfl⟩
  · intro v h
    simp only [BitVector.make, ADDRESS_SIZE_U64] at h
    injection h with h
    subst h
    exact ⟨by decide, rfl⟩
  · intro low high
    constructor
    · show ((List.range ADDRESS_SIZE_U64).map _).length = _
      rw [List.length_map, List.length_range]
    · intro c hc
      simp only [BitVector.random, List.mem_map, List.mem_range] at hc
      obtain ⟨i, _, rfl⟩ := hc
      have h1 : low i % 2 ^ 32 < 2 ^ 32 := Nat.mod_lt _ (Nat.two_pow_pos 32)
      have h2 : high i % 2 ^ 32 < 2 ^ 32 := Nat.mod_lt _ (Nat.two_pow_pos 32)
      have h64 : (2 : Nat) ^ 64 = 2 ^ 32 * 2 ^ 32 := by norm_num
      have h32 : (0 : Nat) < 2 ^ 32 := Nat.two_pow_pos 32
      rw [h64]
      nlinarith
  · intro cs h
    simp only [BitVector.make, if_pos h]
  · intro cs v h
    simp only [BitVector.make] at h
    by_cases hlen : cs.length ≠ ADDRESS_SIZE_U64
    · rw [if_pos hlen] at h
      exact absurd h (by simp)
    · rw [if_neg hlen] at h
      injection h with h
      subst h
      constructor
      · show (cs.map longOfValue).length = _
        rw [List.length_map]
        omega
      · intro c hc
        simp only [List.mem_map] at hc
        obtain ⟨x, _, rfl⟩ := hc
        exact Nat.mod_lt _ (Nat.two_pow_pos 64)

/-- Witness for C5: a 0-length chunk list is rejected, the default and random
constructors produce well-formed vectors. -/
theorem bitVector_chunk_invariant_witness :
    BitVector.make (some [])
        = .error (.validation "BitVector must have 16 chunks") ∧
    (BitVector.random (fun _ => 5) (fun _ => 7)).WF :=
  ⟨bitVector_chunk_invariant.2.2.1 [] (by decide),
   bitVector_chunk_invariant.2.1 (fun _ => 5) (fun _ => 7)⟩

/-- C1 (amended): the run scope passed to the underlying transport by `insert`
and `search` is resolved as JavaScript `runId || this.runId`: a non-empty
explicit per-call runId wins over the client default; an absent per-call runId
falls back to the current default (none when no default is set); an
empty-string per-call runId is falsy and also falls back to the default. -/
theorem runScope_resolution (st : RiceState) (c : ActiveClient)
    (hc : st.client = some c) (nodeId : Nat) (text metadata query : String)
    (userId k : Nat) (sessionId : Option String) (embedding : Option (List Nat))
    (filter : Option String) :
    (∀ r : String, r ≠ "" →
      RiceDBClient.insert st nodeId text metadata userId sessionId embedding
          (some r)
        = .ok (.insert nodeId text metadata userId sessionId embedding (some r)) ∧
      RiceDBClient.search st query userId k sessionId filter embedding (some r)
        = .ok (.search query userId k sessionId filter embedding (some r))) ∧
    (RiceDBClient.insert st nodeId text metadata userId sessionId embedding none
        = .ok (.insert nodeId text metadata userId sessionId embedding st.runId) ∧
      RiceDBClient.search st query userId k sessionId filter embedding none
        = .ok (.search query userId k sessionId filter embedding st.runId)) ∧
    (RiceDBClient.insert st nodeId text metadata userId sessionId embedding
          (some "")
        = .ok (.insert nodeId text metadata userId sessionId embedding
            st.runId)) := by
  refine ⟨fun r hr => ⟨?_, ?_⟩, ⟨?_, ?_⟩, ?_⟩ <;>
    simp [RiceDBClient.insert, RiceDBClient.search, jsOr, hc] <;>
    simp [hr]

/-- Witness for C1 at the spec test inputs: with default scope
"storage-run-a" and no per-call scope the transport receives
"storage-run-a"; an explicit scope "storage-run-override" wins. -/
theorem runScope_resolution_witness :
    RiceDBClient.insert
        { client := some (.http (HttpClientState.create "localhost" 3000 none)),
          runId := some "storage-run-a" }
        101 "doc-a" "md" 1 none none none
      = .ok (.insert 101 "doc-a" "md" 1 none none (some "storage-run-a")) ∧
    RiceDBClient.insert
        { client := some (.http (HttpClientState.create "localhost" 3000 none)),
          runId := some "storage-run-a" }
        101 "doc-a" "md" 1 none none (some "storage-run-override")
      = .ok (.insert 101 "doc-a" "md" 1 none none
          (some "storage-run-override")) :=
  ⟨(runScope_resolution
      { client := some (.http (HttpClientState.create "localhost" 3000 none)),
        runId := some "storage-run-a" }
      (.http (HttpClientState.create "localhost" 3000 none)) rfl
      101 "doc-a" "md" "q" 1 10 none none none).2.1.1,
   ((runScope_resolution
      { client := some (.http (HttpClientState.create "localhost" 3000 none)),
        runId := some "storage-run-a" }
      (.http (HttpClientState.create "localhost" 3000 none)) rfl
      101 "doc-a" "md" "q" 1 10 none none none).1
      "storage-run-override" (by decide)).1⟩

/-- C1 counterexample: the claim that an explicit per-call runId always wins
fails for the empty string — with default scope "storage-run-a" and explicit
per-call scope "", the transport receives "storage-run-a", not "". -/
theorem runScope_counterexample :
    RiceDBClient.insert
        { client := some (.http (HttpClientState.create "localhost" 3000 none)),
          runId := some "storage-run-a" }
        101 "doc-a" "md" 1 none none (some "")
      = .ok (.insert 101 "doc-a" "md" 1 none none (some "storage-run-a")) ∧
    RiceDBClient.insert
        { client := some (.http (HttpClientState.create "localhost" 3000 none)),
          runId := some "storage-run-a" }
        101 "doc-a" "md" 1 none none (some "")
      ≠ .ok (.insert 101 "doc-a" "md" 1 none none (some "")) := by
  constructor
  · decide
  · decide

/-- C2: `deleteRun` on a connected client: when the resolved scope
(`runId || this.runId`) is absent or empty it raises the validation error
"runId is required for deleteRun" without consulting the transport (the
outcome is independent of the transport oracle); otherwise it invokes the
transport `deleteRun` with the resolved scope and returns its
success/message/count result unchanged. -/
theorem deleteRun_validation (tr : String → DeleteRunResult) (st : RiceState)
    (c : ActiveClient) (hc : st.client = some c) (runId : Option String) :
    ((jsOr runId st.runId = none ∨ jsOr runId st.runId = some "") →
      RiceDBClient.deleteRun tr st runId
          = .error (.validation "runId is required for deleteRun") ∧
      ∀ tr' : String → DeleteRunResult,
        RiceDBClient.deleteRun tr' st runId
          = RiceDBClient.deleteRun tr st runId) ∧
    (∀ s : String, jsOr runId st.runId = some s → s ≠ "" →
      RiceDBClient.deleteRun tr st runId = .ok (tr s)) := by
  unfold RiceDBClient.deleteRun
  rw [hc]
  constructor
  · intro h
    rcases h with h | h
    · rw [h]
      exact ⟨rfl, fun tr' => rfl⟩
    · rw [h]
      exact ⟨by simp, fun tr' => rfl⟩
  · intro s hs hne
    rw [hs]
    simp [hne]

/-- Witness for C2: with no per-call scope and no default the validation
error is raised; with defaults present the transport result is returned. -/
theorem deleteRun_validation_witness :
    RiceDBClient.deleteRun (fun _ => ⟨true, "deleted", 1⟩)
        { client := some (.http (HttpClientState.create "localhost" 3000 none)),
          runId := none } none
      = .error (.validation "runId is required for deleteRun") ∧
    RiceDBClient.deleteRun (fun _ => ⟨true, "deleted", 1⟩)
        { client := some (.http (HttpClientState.create "localhost" 3000 none)),
          runId := some "storage-run-a" } (some "storage-run-override")
      = .ok ⟨true, "deleted", 1⟩ :=
  ⟨((deleteRun_validation (fun _ => ⟨true, "deleted", 1⟩)
      { client := some (.http (HttpClientState.create "localhost" 3000 none)),
        runId := none }
      (.http (HttpClientState.create "localhost" 3000 none)) rfl none).1
      (Or.inl rfl)).1,
   (deleteRun_validation (fun _ => ⟨true, "deleted", 1⟩)
      { client := some (.http (HttpClientState.create "localhost" 3000 none)),
        runId := some "storage-run-a" }
      (.http (HttpClientState.create "localhost" 3000 none)) rfl
      (some "storage-run-override")).2 "storage-run-override" (by decide)
      (by decide)⟩

/-- C3: in automatic mode a binary-transport connect failure is recovered:
the outcome does not depend on which error the gRPC attempt produced, and
when the HTTP attempt succeeds the client ends up connected through the text
transport with the diagnostic warning emitted and `connect` returning true;
in forced-binary and forced-text modes a connect failure propagates to the
caller unchanged. -/
theorem connect_fallback (cfg : RiceCfg)
    (grpcConnect : GrpcClientState → Except SdkError Unit)
    (httpConnect : HttpClientState → Except SdkError Unit) :
    (cfg.transport = .auto →
      ∀ e : SdkError,
      grpcConnect (GrpcClientState.create cfg.host cfg.grpcPort cfg.token)
          = .error e →
      (∀ (grpcConnect' : GrpcClientState → Except SdkError Unit)
          (e' : SdkError),
        grpcConnect' (GrpcClientState.create cfg.host cfg.grpcPort cfg.token)
            = .error e' →
        RiceDBClient.connect cfg grpcConnect' httpConnect
          = RiceDBClient.connect cfg grpcConnect httpConnect) ∧
      (httpConnect (HttpClientState.create cfg.host cfg.httpPort cfg.token)
          = .ok () →
        RiceDBClient.connect cfg grpcConnect httpConnect
          = ⟨.ok true,
              some (.http (HttpClientState.create cfg.host cfg.httpPort
                cfg.token)),
              true, ["gRPC connection failed, falling back to HTTP"]⟩)) ∧
    (cfg.transport = .grpc →
      ∀ e : SdkError,
      grpcConnect (GrpcClientState.create cfg.host cfg.grpcPort cfg.token)
          = .error e →
      (RiceDBClient.connect cfg grpcConnect httpConnect).result = .error e) ∧
    (cfg.transport = .http →
      ∀ e : SdkError,
      httpConnect (HttpClientState.create cfg.host cfg.httpPort cfg.token)
          = .error e →
      (RiceDBClient.connect cfg grpcConnect httpConnect).result = .error e) := by
  refine ⟨fun hmode e hge => ⟨fun g' e' hg' => ?_, fun hh => ?_⟩,
          fun hmode e hge => ?_, fun hmode e hhe => ?_⟩
  · unfold RiceDBClient.connect
    rw [hmode]
    simp only [hg', hge]
  · unfold RiceDBClient.connect
    rw [hmode]
    simp only [hge, hh]
  · unfold RiceDBClient.connect
    rw [hmode]
    simp only [hge]
  · unfold RiceDBClient.connect
    rw [hmode]
    simp only [hhe]

/-- Witness for C3: concrete configuration where gRPC fails and HTTP
succeeds in auto mode, and where the forced modes propagate the error. -/
theorem connect_fallback_witness :
    RiceDBClient.connect
        ⟨"localhost", .auto, 50051, 3000, none, none⟩
        (fun _ => .error (.remote "Mocked gRPC connection failure"))
        (fun _ => .ok ())
      = ⟨.ok true,
          some (.http (HttpClientState.create "localhost" 3000 none)),
          true, ["gRPC connection failed, falling back to HTTP"]⟩ ∧
    (RiceDBClient.connect
        ⟨"localhost", .grpc, 50051, 3000, none, none⟩
        (fun _ => .error (.remote "down"))
        (fun _ => .ok ())).result
      = .error (.remote "down") :=
  ⟨((connect_fallback ⟨"localhost", .auto, 50051, 3000, none, none⟩
      (fun _ => .error (.remote "Mocked gRPC connection failure"))
      (fun _ => .ok ())).1 rfl
      (.remote "Mocked gRPC connection failure") rfl).2 rfl,
   (connect_fallback ⟨"localhost", .grpc, 50051, 3000, none, none⟩
      (fun _ => .error (.remote "down"))
      (fun _ => .ok ())).2.1 rfl (.remote "down") rfl⟩

/-- C8: operations a transport cannot support fail fast with a distinct
unsupported-operation error before any network I/O: the text transport
subscribe and watchMemory, and the binary transport getUser, listUsers and
sampleGraph, each produce the unsupported error with an empty request
trace. -/
theorem unsupported_fail_fast :
    (∀ (st : HttpClientState) (ft : String) (nid : Option Nat) (qt : String)
        (th : Nat),
      (HttpClient.subscribe st ft nid qt th).netRequests = [] ∧
      (HttpClient.subscribe st ft nid qt th).result
        = .error (.unsupported
            "Subscribe is not supported via HTTP transport. Use gRPC.")) ∧
    (∀ (st : HttpClientState) (sid : String),
      (HttpClient.watchMemory st sid).netRequests = [] ∧
      (HttpClient.watchMemory st sid).result
        = .error (.unsupported
            "Watch memory is not supported via HTTP transport. Use gRPC.")) ∧
    (∀ (st : GrpcClientState) (u : String),
      (GrpcClient.getUser st u).netRequests = [] ∧
      (GrpcClient.getUser st u).result
        = .error (.unsupported
            "Get user is not supported via gRPC transport. Use HTTP.")) ∧
    (∀ st : GrpcClientState,
      (GrpcClient.listUsers st).netRequests = [] ∧
      (GrpcClient.listUsers st).result
        = .error (.unsupported
            "List users is not supported via gRPC transport. Use HTTP.")) ∧
    (∀ (st : GrpcClientState) (lim : Nat),
      (GrpcClient.sampleGraph st lim).netRequests = [] ∧
      (GrpcClient.sampleGraph st lim).result
        = .error (.unsupported
            "Sample graph is not supported via gRPC transport. Use HTTP.")) :=
  ⟨fun _ _ _ _ _ => ⟨rfl, rfl⟩, fun _ _ => ⟨rfl, rfl⟩, fun _ _ => ⟨rfl, rfl⟩,
   fun _ => ⟨rfl, rfl⟩, fun _ _ => ⟨rfl, rfl⟩⟩

/-- C9: the binary transport checkPermission reports false for every input,
with an empty request trace and a result independent of the client state. -/
theorem grpc_checkPermission_false :
    ∀ (st : GrpcClientState) (nodeId userId : Nat) (pt : String),
      (GrpcClient.checkPermission st nodeId userId pt).result = .ok false ∧
      (GrpcClient.checkPermission st nodeId userId pt).netRequests = [] ∧
      ∀ st' : GrpcClientState,
        (GrpcClient.checkPermission st' nodeId userId pt).result
          = (GrpcClient.checkPermission st nodeId userId pt).result :=
  fun _ _ _ _ => ⟨rfl, rfl, fun _ => rfl⟩

/-- C10: a token supplied at orchestrating-client construction never reaches
the HTTP transport: the HttpClient constructor ignores its extra token
argument (same state for every token argument, stored token and auth header
both absent), the forced-text and auto-fallback connect paths produce an HTTP
client state without a token, and the Authorization header appears only after
login stores the token returned by the server. -/
theorem http_token_ignored :
    (∀ (host : String) (port : Nat) (tokenArg : Option String),
      (HttpClientState.create host port tokenArg).token = none ∧
      (HttpClientState.create host port tokenArg).authHeader = none ∧
      ∀ tokenArg' : Option String,
        HttpClientState.create host port tokenArg'
          = HttpClientState.create host port tokenArg) ∧
    (∀ (cfg : RiceCfg) (g : GrpcClientState → Except SdkError Unit)
        (h : HttpClientState → Except SdkError Unit),
      cfg.transport = .http →
      h (HttpClientState.create cfg.host cfg.httpPort cfg.token) = .ok () →
      (RiceDBClient.connect cfg g h).client
        = some (.http ⟨cfg.host, cfg.httpPort, none, none⟩)) ∧
    (∀ (cfg : RiceCfg) (g : GrpcClientState → Except SdkError Unit)
        (h : HttpClientState → Except SdkError Unit) (e : SdkError),
      cfg.transport = .auto →
      g (GrpcClientState.create cfg.host cfg.grpcPort cfg.token) = .error e →
      h (HttpClientState.create cfg.host cfg.httpPort cfg.token) = .ok () →
      (RiceDBClient.connect cfg g h).client
        = some (.http ⟨cfg.host, cfg.httpPort, none, none⟩)) ∧
    (∀ (st : HttpClientState) (respToken : String), respToken ≠ "" →
      ((st.login respToken).1).authHeader = some ("Bearer " ++ respToken)) := by
  refine ⟨fun host port tokenArg => ⟨rfl, rfl, fun tokenArg' => rfl⟩,
          fun cfg g h hmode hh => ?_, fun cfg g h e hmode hge hh => ?_,
          fun st tok hne => ?_⟩
  · unfold RiceDBClient.connect
    rw [hmode]
    simp only [hh]
    rfl
  · unfold RiceDBClient.connect
    rw [hmode]
    simp only [hge, hh]
    rfl
  · simp [HttpClientState.login, HttpClientState.setAuthHeader, hne]

/-- Witness for C10: concrete forced-text connect with a token supplied, and
a concrete login installing the bearer header. -/
theorem http_token_ignored_witness :
    (RiceDBClient.connect
        ⟨"localhost", .http, 50051, 3000, some "secret-token", none⟩
        (fun _ => .ok ()) (fun _ => .ok ())).client
      = some (.http ⟨"localhost", 3000, none, none⟩) ∧
    ((HttpClientState.create "localhost" 3000 (some "secret-token")).login
        "issued-token").1.authHeader
      = some "Bearer issued-token" :=
  ⟨(http_token_ignored.2.1
      ⟨"localhost", .http, 50051, 3000, some "secret-token", none⟩
      (fun _ => .ok ()) (fun _ => .ok ()) rfl rfl),
   (http_token_ignored.2.2.2
      (HttpClientState.create "localhost" 3000 (some "secret-token"))
      "issued-token" (by decide))⟩

theorem awaitingOf_ready {α : Type} : awaitingOf (.ready : WorkerPhase α) = 0 :=
  rfl

theorem awaitingOf_finished {α : Type} :
    awaitingOf (.finished : WorkerPhase α) = 0 := rfl

theorem awaitingOf_awaiting {α : Type} (c : List α) :
    awaitingOf (.awaiting c) = ({c} : Multiset (List α)) := rfl

theorem awaitingMS_cons {α : Type} (w : WorkerPhase α) (ws : List (WorkerPhase α)) :
    awaitingMS (w :: ws) = awaitingOf w + awaitingMS ws := by
  simp [awaitingMS]

theorem awaitingMS_set {α : Type} (ws : List (WorkerPhase α)) (i : Nat)
    (p q : WorkerPhase α) (h : ws.get? i = some p) :
    awaitingMS (ws.set i q) + awaitingOf p = awaitingMS ws + awaitingOf q := by
  induction ws generalizing i with
  | nil => simp at h
  | cons w ws ih =>
      cases i with
      | zero =>
          rw [List.get?_cons_zero] at h
          injection h with h
          subst h
          show awaitingMS (q :: ws) + awaitingOf w = _
          rw [awaitingMS_cons, awaitingMS_cons]
          abel
      | succ i =>
          rw [List.get?_cons_succ] at h
          show awaitingMS (w :: ws.set i q) + awaitingOf p = _
          rw [awaitingMS_cons, awaitingMS_cons, add_assoc, ih i h, add_assoc]

theorem awaitingMS_zero_of_complete {α : Type} (ws : List (WorkerPhase α))
    (h : ∀ w ∈ ws, w = WorkerPhase.finished) : awaitingMS ws = 0 := by
  induction ws with
  | nil => rfl
  | cons w ws ih =>
      rw [awaitingMS_cons, ih (fun x hx => h x (List.mem_cons_of_mem w hx)),
          h w (List.mem_cons_self w ws)]
      simp [awaitingOf]

theorem awaitingMS_replicate {α : Type} (n : Nat) :
    awaitingMS (List.replicate n (.ready : WorkerPhase α)) = 0 := by
  induction n with
  | zero => rfl
  | succ n ih =>
      rw [List.replicate_succ, awaitingMS_cons, ih, awaitingOf_ready]
      simp

theorem ingestInv_step {α : Type} {resp : List α → Except String Nat}
    {chunks0 : List (List α)} {s t : IngestState α}
    (hstep : IngestStep resp s t) (hinv : IngestInv resp chunks0 s) :
    IngestInv resp chunks0 t := by
  obtain ⟨hqc, hfq, hcs, htot, hfail, herr⟩ := hinv
  cases hstep with
  | dequeue i c rest hw hq =>
      refine ⟨?_, ?_, ?_, htot, hfail, herr⟩
      · show (s.calls ++ [c]) ++ rest = chunks0
        rw [List.append_assoc, List.singleton_append, ← hq]
        exact hqc
      · intro hex
        obtain ⟨w, hwmem, hwfin⟩ := hex
        rcases List.mem_or_eq_of_mem_set hwmem with hmem | heq
        · have h0 := hfq ⟨w, hmem, hwfin⟩
          rw [hq] at h0
          exact absurd h0 (by simp)
        · rw [heq] at hwfin
          exact absurd hwfin (by simp)
      · show (↑s.completed + awaitingMS (s.workers.set i (.awaiting c)) :
            Multiset (List α)) = ↑(s.calls ++ [c])
        have h := awaitingMS_set s.workers i .ready (.awaiting c) hw
        rw [awaitingOf_ready, awaitingOf_awaiting, add_zero] at h
        rw [h, ← add_assoc, hcs]
        rfl
  | exit i hw hq =>
      refine ⟨hqc, fun _ => hq, ?_, htot, hfail, herr⟩
      show (↑s.completed + awaitingMS (s.workers.set i .finished) :
          Multiset (List α)) = ↑s.calls
      have h := awaitingMS_set s.workers i .ready .finished hw
      rw [awaitingOf_ready, awaitingOf_finished, add_zero, add_zero] at h
      rw [h]
      exact hcs
  | completeOk i c n hw hr =>
      refine ⟨hqc, ?_, ?_, ?_, ?_, herr⟩
      · intro hex
        obtain ⟨w, hwmem, hwfin⟩ := hex
        rcases List.mem_or_eq_of_mem_set hwmem with hmem | heq
        · exact hfq ⟨w, hmem, hwfin⟩
        · rw [heq] at hwfin
          exact absurd hwfin (by simp)
      · show (↑(s.completed ++ [c]) + awaitingMS (s.workers.set i .ready) :
            Multiset (List α)) = ↑s.calls
        have h := awaitingMS_set s.workers i (.awaiting c) .ready hw
        rw [awaitingOf_ready, awaitingOf_awaiting, add_zero] at h
        have hco : (↑(s.completed ++ [c]) : Multiset (List α))
            = ↑s.completed + {c} := rfl
        rw [hco, add_assoc, add_comm ({c} : Multiset (List α)), h, hcs]
      · show s.totalInserted + n = ((s.completed ++ [c]).map (respCount resp)).sum
        rw [List.map_append, List.sum_append, ← htot]
        simp [respCount, hr]
      · show s.failedBatches = (s.completed ++ [c]).countP (respFails resp)
        rw [List.countP_append, ← hfail]
        simp [respFails, hr]
  | completeErr i c msg hw hr =>
      refine ⟨hqc, ?_, ?_, ?_, ?_, ?_⟩
      · intro hex
        obtain ⟨w, hwmem, hwfin⟩ := hex
        rcases List.mem_or_eq_of_mem_set hwmem with hmem | heq
        · exact hfq ⟨w, hmem, hwfin⟩
        · rw [heq] at hwfin
          exact absurd hwfin (by simp)
      · show (↑(s.completed ++ [c]) + awaitingMS (s.workers.set i .ready) :
            Multiset (List α)) = ↑s.calls
        have h := awaitingMS_set s.workers i (.awaiting c) .ready hw
        rw [awaitingOf_ready, awaitingOf_awaiting, add_zero] at h
        have hco : (↑(s.completed ++ [c]) : Multiset (List α))
            = ↑s.completed + {c} := rfl
        rw [hco, add_assoc, add_comm ({c} : Multiset (List α)), h, hcs]
      · show s.totalInserted = ((s.completed ++ [c]).map (respCount resp)).sum
        rw [List.map_append, List.sum_append, ← htot]
        simp [respCount, hr]
      · show s.failedBatches + 1 = (s.completed ++ [c]).countP (respFails resp)
        rw [List.countP_append, ← hfail]
        simp [respFails, hr]
      · show (if s.errors.length < 10 then s.errors ++ [msg]
            else s.errors).length = min (s.failedBatches + 1) 10
        by_cases hlt : s.errors.length < 10
        · rw [if_pos hlt, List.length_append]
          simp only [List.length_singleton]
          omega
        · rw [if_neg hlt]
          omega

theorem ingestInv_run {α : Type} {resp : List α → Except String Nat}
    {chunks0 : List (List α)} {s t : IngestState α}
    (hrun : Relation.ReflTransGen (IngestStep resp) s t)
    (hinv : IngestInv resp chunks0 s) : IngestInv resp chunks0 t := by
  induction hrun with
  | refl => exact hinv
  | tail _ hstep ih => exact ingestInv_step hstep ih

theorem ingestInv_init {α : Type} (resp : List α → Except String Nat)
    (bs conc : Nat) (docs : List α) :
    IngestInv resp (chunksOf bs docs) (initState bs conc docs) := by
  refine ⟨rfl, ?_, ?_, rfl, rfl, rfl⟩
  · intro hex
    obtain ⟨w, hw, hfin⟩ := hex
    have hr := List.eq_of_mem_replicate hw
    rw [hr] at hfin
    exact absurd hfin (by simp)
  · show ((↑([] : List (List α))) + awaitingMS (List.replicate _ .ready) :
        Multiset (List α)) = ↑([] : List (List α))
    rw [awaitingMS_replicate]
    simp

theorem ingestStep_workers_length {α : Type} {resp : List α → Except String Nat}
    {s t : IngestState α} (h : IngestStep resp s t) :
    t.workers.length = s.workers.length := by
  cases h <;> simp

theorem ingestRun_workers_length {α : Type} {resp : List α → Except String Nat}
    {s t : IngestState α} (hrun : Relation.ReflTransGen (IngestStep resp) s t) :
    t.workers.length = s.workers.length := by
  induction hrun with
  | refl => rfl
  | tail _ hstep ih => rw [ingestStep_workers_length hstep, ih]

theorem complete_calls {α : Type} {resp : List α → Except String Nat}
    {bs conc : Nat} {docs : List α} {s : IngestState α}
    (hrun : Relation.ReflTransGen (IngestStep resp) (initState bs conc docs) s)
    (hdone : Complete s) :
    (↑s.completed : Multiset (List α)) = ↑s.calls ∧
    s.calls ++ s.queue = chunksOf bs docs ∧
    (0 < conc → s.calls = chunksOf bs docs) := by
  have hinv := ingestInv_run hrun (ingestInv_init resp bs conc docs)
  have hms : awaitingMS s.workers = 0 := awaitingMS_zero_of_complete _ hdone
  refine ⟨?_, hinv.queue_calls, ?_⟩
  · have h := hinv.calls_split
    rw [hms, add_zero] at h
    exact h
  · intro hconc
    by_cases hnil : (chunksOf bs docs).length = 0
    · have hcempty : chunksOf bs docs = [] := List.length_eq_zero.mp hnil
      have hqc := hinv.queue_calls
      rw [hcempty] at hqc
      rw [hcempty]
      exact (List.append_eq_nil.mp hqc).1
    · have hlen : s.workers.length = min conc (chunksOf bs docs).length := by
        rw [ingestRun_workers_length hrun]
        show (List.replicate _ _).length = _
        exact List.length_replicate _ _
      have hpos : 0 < s.workers.length := by
        rw [hlen]
        omega
      obtain ⟨w, hw⟩ : ∃ w, w ∈ s.workers := by
        cases hws : s.workers with
        | nil => rw [hws] at hpos; simp at hpos
        | cons a l => exact ⟨a, List.mem_cons_self a l⟩
      have hq : s.queue = [] := hinv.finished_queue ⟨w, hw, hdone w hw⟩
      have hqc := hinv.queue_calls
      rw [hq, List.append_nil] at hqc
      exact hqc

theorem chunksOf_flatten {α : Type} (bs : Nat) (hbs : 0 < bs) :
    ∀ docs : List α, (chunksOf bs docs).flatten = docs := by
  obtain ⟨b, rfl⟩ : ∃ b, bs = b + 1 := ⟨bs - 1, by omega⟩
  intro docs
  have hgen : ∀ (n : Nat) (docs : List α), docs.length ≤ n →
      (chunksOf (b + 1) docs).flatten = docs := by
    intro n
    induction n with
    | zero =>
        intro docs h
        cases docs with
        | nil => simp [chunksOf]
        | cons d ds => simp at h
    | succ n ih =>
        intro docs h
        cases docs with
        | nil => simp [chunksOf]
        | cons d ds =>
            rw [chunksOf]
            rw [List.flatten_cons,
                ih ((d :: ds).drop (b + 1))
                  (by simp only [List.length_drop, List.length_cons] at h ⊢
                      omega)]
            exact List.take_append_drop _ _
  exact hgen docs.length docs (Nat.le_refl _)

theorem ceil_div_step (L b : Nat) :
    (L + 1 - (b + 1) + (b + 1) - 1) / (b + 1) + 1
      = (L + 1 + (b + 1) - 1) / (b + 1) := by
  have e2 : L + 1 + (b + 1) - 1 = L + (b + 1) := by omega
  rw [e2, Nat.add_div_right _ (by omega)]
  by_cases hle : L + 1 ≤ b + 1
  · have e1 : L + 1 - (b + 1) + (b + 1) - 1 = b := by omega
    rw [e1, Nat.div_eq_of_lt (by omega : b < b + 1),
        Nat.div_eq_of_lt (by omega : L < b + 1)]
  · have e1 : L + 1 - (b + 1) + (b + 1) - 1 = L := by omega
    rw [e1]

theorem chunksOf_length {α : Type} (bs : Nat) (hbs : 0 < bs) :
    ∀ docs : List α, (chunksOf bs docs).length = (docs.length + bs - 1) / bs := by
  obtain ⟨b, rfl⟩ : ∃ b, bs = b + 1 := ⟨bs - 1, by omega⟩
  intro docs
  have hgen : ∀ (n : Nat) (docs : List α), docs.length ≤ n →
      (chunksOf (b + 1) docs).length = (docs.length + (b + 1) - 1) / (b + 1) := by
    intro n
    induction n with
    | zero =>
        intro docs h
        cases docs with
        | nil =>
            have h0 : chunksOf (b + 1) ([] : List α) = [] := by simp [chunksOf]
            rw [h0]
            simp only [List.length_nil]
            symm
            exact Nat.div_eq_of_lt (by omega)
        | cons d ds => simp at h
    | succ n ih =>
        intro docs h
        cases docs with
        | nil =>
            have h0 : chunksOf (b + 1) ([] : List α) = [] := by simp [chunksOf]
            rw [h0]
            simp only [List.length_nil]
            symm
            exact Nat.div_eq_of_lt (by omega)
        | cons d ds =>
            rw [chunksOf, List.length_cons,
                ih ((d :: ds).drop (b + 1))
                  (by simp only [List.length_drop, List.length_cons] at h ⊢
                      omega),
                List.length_drop, List.length_cons]
            exact ceil_div_step ds.length b
  exact hgen docs.length docs (Nat.le_refl _)

theorem chunksOf_mem {α : Type} (bs : Nat) :
    ∀ docs : List α, ∀ c ∈ chunksOf bs docs, c ≠ [] ∧ c.length ≤ bs := by
  intro docs
  have hgen : ∀ (n : Nat) (docs : List α), docs.length ≤ n →
      ∀ c ∈ chunksOf bs docs, c ≠ [] ∧ c.length ≤ bs := by
    intro n
    induction n with
    | zero =>
        intro docs h c hc
        cases docs with
        | nil => simp [chunksOf] at hc
        | cons d ds => simp at h
    | succ n ih =>
        intro docs h c hc
        cases docs with
        | nil => simp [chunksOf] at hc
        | cons d ds =>
            cases bs with
            | zero => simp [chunksOf] at hc
            | succ b =>
                rw [chunksOf] at hc
                rcases List.mem_cons.mp hc with hc | hc
                · subst hc
                  constructor
                  · simp [List.take]
                  · rw [List.length_take]
                    omega
                · exact ih ((d :: ds).drop (b + 1))
                    (by simp only [List.length_drop, List.length_cons] at h ⊢
                        omega) c hc
  exact hgen docs.length docs (Nat.le_refl _)

/-- C6: for every complete interleaved execution of fastIngest, totalInserted
is the sum of the counts of the successful batchInsert calls, failedBatches
counts the failed calls, error texts are recorded only while fewer than 10
are present, the report computes throughput as inserted over elapsed seconds
with 0 for zero elapsed time, a batch failure never fails the whole run, and
at the 1000-document batchSize-250 instance all-success gives 0 failed
batches while exactly one failure gives 1 with the total still summing the
other chunks. -/
theorem fastIngest_aggregation {α : Type} (resp : List α → Except String Nat)
    (docs : List α) (bs conc : Nat) (hbs : 0 < bs) (s : IngestState α)
    (hrun : Relation.ReflTransGen (IngestStep resp) (initState bs conc docs) s)
    (hdone : Complete s) :
    s.totalInserted = (s.calls.map (respCount resp)).sum ∧
    s.failedBatches = s.calls.countP (respFails resp) ∧
    s.errors.length = min s.failedBatches 10 ∧
    (∀ startMs endMs : Nat,
      (mkReport s startMs endMs).totalInserted = s.totalInserted ∧
      (mkReport s startMs endMs).failedBatches = s.failedBatches ∧
      (mkReport s startMs endMs).errors = s.errors ∧
      (mkReport s startMs endMs).timeTaken = ((endMs - startMs : Nat) : ℚ) / 1000 ∧
      (startMs < endMs →
        (mkReport s startMs endMs).throughput
          = (s.totalInserted : ℚ) / (mkReport s startMs endMs).timeTaken) ∧
      (endMs = startMs → (mkReport s startMs endMs).throughput = 0)) ∧
    (0 < conc → docs.length = 1000 → bs = 250 →
      ((∀ c ∈ chunksOf bs docs, respFails resp c = false) →
        s.failedBatches = 0) ∧
      ((chunksOf bs docs).countP (respFails resp) = 1 →
        s.failedBatches = 1) ∧
      s.totalInserted = ((chunksOf bs docs).map (respCount resp)).sum) := by
  obtain ⟨hms, hqc, hcalls⟩ := complete_calls hrun hdone
  have hinv := ingestInv_run hrun (ingestInv_init resp bs conc docs)
  have hperm : s.completed.Perm s.calls := Multiset.coe_eq_coe.mp hms
  have h1 : s.totalInserted = (s.calls.map (respCount resp)).sum := by
    rw [hinv.total]
    exact List.Perm.sum_eq (hperm.map (respCount resp))
  have h2 : s.failedBatches = s.calls.countP (respFails resp) := by
    rw [hinv.failed]
    exact hperm.countP_eq _
  refine ⟨h1, h2, hinv.errlen, ?_, ?_⟩
  · intro startMs endMs
    refine ⟨rfl, rfl, rfl, rfl, fun hlt => ?_, fun heq => ?_⟩
    · have hq0 : (0 : ℚ) < ((endMs - startMs : Nat) : ℚ) / 1000 := by
        have hc : (0 : ℚ) < ((endMs - startMs : Nat) : ℚ) := by
          exact_mod_cast Nat.sub_pos_of_lt hlt
        positivity
      show (if ((endMs - startMs : Nat) : ℚ) / 1000 > 0
          then (s.totalInserted : ℚ) / (((endMs - startMs : Nat) : ℚ) / 1000)
          else 0)
        = (s.totalInserted : ℚ) / (mkReport s startMs endMs).timeTaken
      rw [if_pos hq0]
      rfl
    · show (if ((endMs - startMs : Nat) : ℚ) / 1000 > 0
          then (s.totalInserted : ℚ) / (((endMs - startMs : Nat) : ℚ) / 1000)
          else 0) = 0
      rw [heq, if_neg (by simp)]
  · intro hconc _ _
    have hc := hcalls hconc
    refine ⟨?_, ?_, ?_⟩
    · intro hall
      rw [h2, hc]
      apply List.countP_eq_zero.mpr
      intro c hcmem
      simp [hall c hcmem]
    · intro hone
      rw [h2, hc]
      exact hone
    · rw [h1, hc]

/-- Witness for C6: a complete concrete run over four documents with
batchSize 2 and concurrency 2 where both batches succeed. -/
theorem fastIngest_aggregation_witness :
    wS6.totalInserted = 4 ∧ wS6.failedBatches = 0 ∧
    wS6.errors.length = min wS6.failedBatches 10 := by
  have hinit : initState 2 2 wDocs = wS0 := by
    simp [initState, wDocs, wS0, chunksOf]
  have s1 : IngestStep wResp wS0 wS1 :=
    IngestStep.dequeue wS0 0 [10, 20] [[30, 40]] (by decide) rfl
  have s2 : IngestStep wResp wS1 wS2 :=
    IngestStep.dequeue wS1 1 [30, 40] [] (by decide) rfl
  have s3 : IngestStep wResp wS2 wS3 :=
    IngestStep.completeOk wS2 0 [10, 20] 2 (by decide) rfl
  have s4 : IngestStep wResp wS3 wS4 :=
    IngestStep.exit wS3 0 (by decide) rfl
  have s5 : IngestStep wResp wS4 wS5 :=
    IngestStep.completeOk wS4 1 [30, 40] 2 (by decide) rfl
  have s6 : IngestStep wResp wS5 wS6 :=
    IngestStep.exit wS5 1 (by decide) rfl
  have hrun : Relation.ReflTransGen (IngestStep wResp) (initState 2 2 wDocs) wS6 := by
    rw [hinit]
    exact .head s1 (.head s2 (.head s3 (.head s4 (.head s5 (.single s6)))))
  have hdone : Complete wS6 := by
    show ∀ w ∈ wS6.workers, w = WorkerPhase.finished
    decide
  have h := fastIngest_aggregation wResp wDocs 2 2 (by omega) wS6 hrun hdone
  refine ⟨?_, ?_, h.2.2.1⟩
  · rw [h.1]
    decide
  · rw [h.2.1]
    decide

/-- C7 (amended): fastIngest partitions the documents into contiguous chunks
of batchSize (flattening the chunks restores the document list, the chunk
count is the ceiling of length over batchSize, every chunk is nonempty and at
most batchSize long) and processes them through min(concurrency, chunk count)
workers pulling from one shared queue; in every complete execution the
sequence of chunks passed to batchInsert is exactly the chunk list — each
chunk claimed once, none skipped, none duplicated. -/
theorem fastIngest_partition {α : Type} (resp : List α → Except String Nat)
    (docs : List α) (bs conc : Nat) (hbs : 0 < bs) (hconc : 0 < conc)
    (s : IngestState α)
    (hrun : Relation.ReflTransGen (IngestStep resp) (initState bs conc docs) s)
    (hdone : Complete s) :
    (initState bs conc docs).workers.length
        = min conc (chunksOf bs docs).length ∧
    s.calls = chunksOf bs docs ∧
    (chunksOf bs docs).flatten = docs ∧
    (chunksOf bs docs).length = (docs.length + bs - 1) / bs ∧
    ∀ c ∈ chunksOf bs docs, c ≠ [] ∧ c.length ≤ bs := by
  obtain ⟨hms, hqc, hcalls⟩ := complete_calls hrun hdone
  refine ⟨?_, hcalls hconc, chunksOf_flatten bs hbs docs,
          chunksOf_length bs hbs docs, chunksOf_mem bs docs⟩
  show (List.replicate _ _).length = _
  exact List.length_replicate _ _

/-- Witness for C7 on the same concrete complete run. -/
theorem fastIngest_partition_witness :
    (initState 2 2 wDocs).workers.length
        = min 2 (chunksOf 2 wDocs).length ∧
    wS6.calls = chunksOf 2 wDocs := by
  have hinit : initState 2 2 wDocs = wS0 := by
    simp [initState, wDocs, wS0, chunksOf]
  have s1 : IngestStep wResp wS0 wS1 :=
    IngestStep.dequeue wS0 0 [10, 20] [[30, 40]] (by decide) rfl
  have s2 : IngestStep wResp wS1 wS2 :=
    IngestStep.dequeue wS1 1 [30, 40] [] (by decide) rfl
  have s3 : IngestStep wResp wS2 wS3 :=
    IngestStep.completeOk wS2 0 [10, 20] 2 (by decide) rfl
  have s4 : IngestStep wResp wS3 wS4 :=
    IngestStep.exit wS3 0 (by decide) rfl
  have s5 : IngestStep wResp wS4 wS5 :=
    IngestStep.completeOk wS4 1 [30, 40] 2 (by decide) rfl
  have s6 : IngestStep wResp wS5 wS6 :=
    IngestStep.exit wS5 1 (by decide) rfl
  have hrun : Relation.ReflTransGen (IngestStep wResp) (initState 2 2 wDocs) wS6 := by
    rw [hinit]
    exact .head s1 (.head s2 (.head s3 (.head s4 (.head s5 (.single s6)))))
  have hdone : Complete wS6 := by
    show ∀ w ∈ wS6.workers, w = WorkerPhase.finished
    decide
  have h := fastIngest_partition wResp wDocs 2 2 (by omega) (by omega) wS6
    hrun hdone
  exact ⟨h.1, h.2.1⟩

/-- C7 counterexample: at the spec instance of 1000 documents with
batchSize 250 and concurrency 4 the engine creates
Math.min(concurrency, chunks) = 4 workers, not batchSize times concurrency
= 1000. -/
theorem fastIngest_worker_counterexample :
    (initState 250 4 (List.range 1000)).workers.length = 4 ∧
    (initState 250 4 (List.range 1000)).workers.length ≠ 250 * 4 := by
  have hlen : (chunksOf 250 (List.range 1000)).length = 4 := by
    rw [chunksOf_length 250 (by omega) (List.range 1000), List.length_range]
  have hw : (initState 250 4 (List.range 1000)).workers.length = 4 := by
    show (List.replicate (min 4 (chunksOf 250 (List.range 1000)).length)
        WorkerPhase.ready).length = 4
    rw [List.length_replicate, hlen]
    omega
  exact ⟨hw, by rw [hw]; omega⟩

end RiceSDK
